import Mathlib

/-!
# Event count over a futex backend

Shallow embedding of `EventCount.hpp` / `Futex.hpp`.

* `std::atomic<uint64_t> val_` is a natural number below `2 ^ 64`; every
  `fetch_add` reduces modulo `2 ^ 64`.
* `uint32_t` values are natural numbers below `2 ^ 32`, `int` values are integers.
* Calls that leave the process (`futexWake`, `futexWait`) are recorded in the
  order they are issued; what the backend wait answers, and what other threads
  did to `val_` meanwhile, is input to the model.
-/

namespace EventCount

/-! ## Futex.hpp -/

/-- Result of a backend wait, `enum class FutexResult`. -/
inductive FutexResult where
  | VALUE_CHANGED
  | AWOKEN
  | INTERRUPTED
  | TIMEDOUT
  deriving DecidableEq

/-- A call that reaches the futex backend.  `index` is the pointer offset, in
`Futex` (32 bit) units, added to `&val_`; `count` is an `int`; the masks and
`expected` are `uint32_t`. -/
inductive Call where
  | futexWake (index : Nat) (count : Int) (wakeMask : Nat)
  | futexWait (index : Nat) (expected : Nat) (waitMask : Nat)
  deriving DecidableEq

/-- The default mask argument `uint32_t(-1)` of `futexWait` and `futexWake`. -/
def kAllBits : Nat := 2 ^ 32 - 1

/-- The `assert(rv != FutexResult::TIMEDOUT)` of `futexWait`: `none` is the
failed assertion, otherwise the value of `futexWaitImpl` is handed back. -/
def futexWait (rv : FutexResult) : Option FutexResult :=
  if rv = FutexResult.TIMEDOUT then none else some rv

/-! ## EventCount.hpp: constants -/

/-- `constexpr auto kIsLittleEndian = true`. -/
def kIsLittleEndian : Bool := true

/-- `kEpochOffset = kIsLittleEndian ? 1 : 0`. -/
def kEpochOffset : Nat := if kIsLittleEndian then 1 else 0

/-- `kAddWaiter = uint64_t(1)`. -/
def kAddWaiter : Nat := 1

/-- `kSubWaiter = uint64_t(-1)`. -/
def kSubWaiter : Nat := 2 ^ 64 - 1

/-- `kEpochShift = 32`. -/
def kEpochShift : Nat := 32

/-- `kAddEpoch = uint64_t(1) << kEpochShift`. -/
def kAddEpoch : Nat := 1 <<< kEpochShift

/-- `kWaiterMask = kAddEpoch - 1`. -/
def kWaiterMask : Nat := kAddEpoch - 1

/-- `INT_MAX` for a 4 byte `int` (the `static_assert(sizeof(int) == 4)`). -/
def INT_MAX : Int := 2 ^ 31 - 1

/-- The 32 bit unit found at `reinterpret_cast<Futex*>(&val_) + index`, for
`index` 0 or 1: on a little-endian machine unit 0 is the low half. -/
def futexAt (littleEndian : Bool) (val_ : Nat) (index : Nat) : Nat :=
  if littleEndian then (val_ >>> (32 * index)) % 2 ^ 32
  else (val_ >>> (32 * (1 - index))) % 2 ^ 32

/-- Modelled from the spec: the macro `UNLIKELY` of `Likely.hpp`, a header that
is not among the sources.  It is a hint for branch prediction and yields the
truth value of its argument: the wake is issued "if the pre-increment waiter
count was nonzero". -/
def UNLIKELY (x : Nat) : Bool := decide (x ≠ 0)

/-- `std::atomic<uint64_t>::fetch_add`: the previous value, and the value
stored. -/
def fetch_add (val_ arg : Nat) : Nat × Nat :=
  (val_, (val_ + arg) % 2 ^ 64)

/-- `EventCount::Key`: the `uint32_t epoch_`. -/
structure Key where
  epoch_ : Nat
  deriving DecidableEq

/-- The constructor `Key(uint32_t e)`, applied to a `uint64_t` argument: the
conversion to `uint32_t` keeps the low 32 bits. -/
def Key.ofUInt64 (e : Nat) : Key := ⟨e % 2 ^ 32⟩

/-! ## EventCount.hpp: operations on `val_` -/

/-- `EventCount::doNotify(int n)`: the stored word and the backend calls made. -/
def doNotify (n : Int) (val_ : Nat) : Nat × List Call :=
  let r := fetch_add val_ kAddEpoch
  let prev := r.1
  if UNLIKELY (prev &&& kWaiterMask) then
    (r.2, [Call.futexWake kEpochOffset n kAllBits])
  else
    (r.2, [])

/-- `EventCount::notify()`. -/
def notify (val_ : Nat) : Nat × List Call := doNotify 1 val_

/-- `EventCount::notifyAll()`. -/
def notifyAll (val_ : Nat) : Nat × List Call := doNotify INT_MAX val_

/-- `EventCount::prepareWait()`: the key returned and the stored word. -/
def prepareWait (val_ : Nat) : Key × Nat :=
  let r := fetch_add val_ kAddWaiter
  let prev := r.1
  (Key.ofUInt64 (prev >>> kEpochShift), r.2)

/-- `EventCount::cancelWait()`: the stored word. -/
def cancelWait (val_ : Nat) : Nat :=
  (fetch_add val_ kSubWaiter).2

/-- The epoch field of a state word, `val >> kEpochShift`. -/
def epochOf (val_ : Nat) : Nat := val_ >>> kEpochShift

/-- The waiter-count field of a state word, `val & kWaiterMask`. -/
def waitersOf (val_ : Nat) : Nat := val_ &&& kWaiterMask

/-! ## EventCount.hpp: `wait` -/

/-- What `wait` finds when one backend wait comes back: `rv` is the value of
`futexWaitImpl`, `val_` the word that the next `val_.load` reads (other threads
change `val_` while this one is inside the backend). -/
structure Wakeup where
  rv : FutexResult
  val_ : Nat
  deriving DecidableEq

/-- How far a call of `wait` got, with the backend calls it issued, oldest
first.  `returned`: the loop was left and the `fetch_add(kSubWaiter)` stored
`val_`.  `asleep`: the last backend wait issued has not come back.  `aborted`:
the assertion inside `futexWait` failed. -/
inductive WaitOutcome where
  | returned (val_ : Nat) (calls : List Call)
  | asleep (calls : List Call)
  | aborted (calls : List Call)
  deriving DecidableEq

/-- Puts a backend call in front of the calls of an outcome. -/
def WaitOutcome.after (c : Call) : WaitOutcome → WaitOutcome
  | .returned v cs => .returned v (c :: cs)
  | .asleep cs => .asleep (c :: cs)
  | .aborted cs => .aborted (c :: cs)

/-- `EventCount::wait(Key key)`, started when `val_` holds the given word; the
list says how each backend wait, in turn, comes back. -/
def wait (key : Key) : Nat → List Wakeup → WaitOutcome
  | val_, [] =>
    if (val_ >>> kEpochShift) = key.epoch_ then
      .asleep [Call.futexWait kEpochOffset key.epoch_ kAllBits]
    else
      .returned (fetch_add val_ kSubWaiter).2 []
  | val_, w :: rest =>
    if (val_ >>> kEpochShift) = key.epoch_ then
      match futexWait w.rv with
      | none => .aborted [Call.futexWait kEpochOffset key.epoch_ kAllBits]
      | some _ =>
        (wait key w.val_ rest).after (Call.futexWait kEpochOffset key.epoch_ kAllBits)
    else
      .returned (fetch_add val_ kSubWaiter).2 []

/-! ## Histories of operations on one instance -/

/-- An operation on the event count that has completed its `fetch_add`. -/
inductive Event where
  | prepareWait
  | cancelWait
  | waitReturn
  | notify
  | notifyAll
  deriving DecidableEq

/-- The word an operation stores. -/
def Event.apply : Event → Nat → Nat
  | .prepareWait, val_ => (EventCount.prepareWait val_).2
  | .cancelWait, val_ => EventCount.cancelWait val_
  | .waitReturn, val_ => (fetch_add val_ kSubWaiter).2
  | .notify, val_ => (EventCount.notify val_).1
  | .notifyAll, val_ => (EventCount.notifyAll val_).1

/-- The word after a history of operations, oldest first. -/
def runEvents : List Event → Nat → Nat
  | [], val_ => val_
  | e :: es, val_ => runEvents es (e.apply val_)

/-- Whether the operation is `prepareWait`, `cancelWait` or the return of a
`wait`. -/
def Event.isRegistration : Event → Bool
  | .prepareWait => true
  | .cancelWait => true
  | .waitReturn => true
  | .notify => false
  | .notifyAll => false

/-- Number of `notify` / `notifyAll` operations in a history. -/
def notifies : List Event → Nat
  | [] => 0
  | .notify :: es => notifies es + 1
  | .notifyAll :: es => notifies es + 1
  | _ :: es => notifies es

/-- Registrations outstanding after a history that starts with `r` of them. -/
def outstanding : Nat → List Event → Nat
  | r, [] => r
  | r, .prepareWait :: es => outstanding (r + 1) es
  | r, .cancelWait :: es => outstanding (r - 1) es
  | r, .waitReturn :: es => outstanding (r - 1) es
  | r, _ :: es => outstanding r es

/-- A history that starts with `r` outstanding registrations is well formed
when every `cancelWait` and every return of a `wait` consumes an outstanding
registration and fewer than `cap` registrations are outstanding at any time. -/
def wellFormed (cap : Nat) : Nat → List Event → Bool
  | _, [] => true
  | r, .prepareWait :: es => decide (r + 1 < cap) && wellFormed cap (r + 1) es
  | r, .cancelWait :: es => decide (1 ≤ r) && wellFormed cap (r - 1) es
  | r, .waitReturn :: es => decide (1 ≤ r) && wellFormed cap (r - 1) es
  | r, .notify :: es => wellFormed cap r es
  | r, .notifyAll :: es => wellFormed cap r es

/-! ## EventCount.hpp: `await` -/

/-- What one evaluation of `condition()` does: it yields a `bool`, or it
throws. -/
inductive CondOutcome (ε : Type) where
  | value (b : Bool)
  | raise (err : ε)
  deriving DecidableEq

/-- The surroundings of one pass through the loop of `await`: what the
evaluation of `condition()` after `prepareWait()` does, the operations other
threads complete on the event count while it is evaluated, and, for the
`wait(key)` that follows a false condition, how each backend wait comes back
together with the operations other threads completed before it did. -/
structure Round (ε : Type) where
  cond : CondOutcome ε
  during : List Event
  wakeups : List (FutexResult × List Event)

/-- The words that the loads of a `wait` started on `val_` read after each
backend wait. -/
def seen (val_ : Nat) : List (FutexResult × List Event) → List Wakeup
  | [] => []
  | (rv, others) :: rest =>
    ⟨rv, runEvents others val_⟩ :: seen (runEvents others val_) rest

/-- Whether the other threads leave the waiter count alone during a round:
they only notify. -/
def Round.othersOnlyNotify {ε : Type} (r : Round ε) : Bool :=
  r.during.all (fun e => !e.isRegistration)
    && r.wakeups.all (fun w => w.2.all (fun e => !e.isRegistration))

/-- A call that `await` makes. -/
inductive Step (ε : Type) where
  | condition (outcome : CondOutcome ε)
  | prepareWait (key : Key)
  | cancelWait
  | wait (key : Key)
  deriving DecidableEq

/-- How a call of `await` ends, with the word it leaves in `val_`: it returns,
it rethrows what `condition()` threw, it is inside a backend wait that has not
come back, the assertion of `futexWait` failed, or it is about to start
another pass of the loop (the rounds supplied are used up). -/
inductive AwaitExit (ε : Type) where
  | returned (val_ : Nat)
  | threw (err : ε) (val_ : Nat)
  | asleep
  | aborted
  | unfinished (val_ : Nat)
  deriving DecidableEq

/-- A run of `await`: how it ends, the calls it made, and the backend calls
among them, oldest first. -/
structure AwaitRun (ε : Type) where
  exit : AwaitExit ε
  steps : List (Step ε)
  calls : List Call
  deriving DecidableEq

/-- Puts the calls of an earlier part of the run in front. -/
def AwaitRun.after {ε : Type} (steps : List (Step ε)) (calls : List Call)
    (r : AwaitRun ε) : AwaitRun ε :=
  ⟨r.exit, steps ++ r.steps, calls ++ r.calls⟩

/-- The `for (;;)` loop inside the `try` block of `EventCount::await`,
entered with the word `val_`. -/
def awaitLoop {ε : Type} : Nat → List (Round ε) → AwaitRun ε
  | val_, [] => ⟨.unfinished val_, [], []⟩
  | val_, r :: rest =>
    let p := prepareWait val_
    let key := p.1
    let v1 := runEvents r.during p.2
    match r.cond with
    | .value true =>
      ⟨.returned (cancelWait v1), [.prepareWait key, .condition r.cond, .cancelWait], []⟩
    | .value false =>
      match wait key v1 (seen v1 r.wakeups) with
      | .returned v2 cs =>
        (awaitLoop v2 rest).after [.prepareWait key, .condition r.cond, .wait key] cs
      | .asleep cs => ⟨.asleep, [.prepareWait key, .condition r.cond, .wait key], cs⟩
      | .aborted cs => ⟨.aborted, [.prepareWait key, .condition r.cond, .wait key], cs⟩
    | .raise err =>
      ⟨.threw err (cancelWait v1), [.prepareWait key, .condition r.cond, .cancelWait], []⟩

/-- `EventCount::await(Condition condition)`, entered with the word `val_`:
`first` is what the evaluation of `condition()` on the fast path does, the
rounds are the surroundings of the passes through the loop. -/
def await {ε : Type} (first : CondOutcome ε) (val_ : Nat) (rounds : List (Round ε)) :
    AwaitRun ε :=
  match first with
  | .value true => ⟨.returned val_, [.condition first], []⟩
  | .value false => (awaitLoop val_ rounds).after [.condition first] []
  | .raise err => ⟨.threw err val_, [.condition first], []⟩

/-! ## Futex.cpp: the native backend

The outcome of the `futex` system call (its return value and `errno`) is input
to the model.  `assert` is taken as active: the sources never define `NDEBUG`.
-/

/-- `nativeFutexWake`: `rv` is the value of the `FUTEX_WAKE_BITSET` system
call, stored in an `int`. -/
def nativeFutexWake (rv : Int) : Int :=
  if rv < 0 then 0 else rv

/-- `futexWakeImpl`, which hands over to `nativeFutexWake`. -/
def futexWakeImpl (rv : Int) : Int := nativeFutexWake rv

/-- `futexWake` of `Futex.hpp`, which hands over to `futexWakeImpl`. -/
def futexWake (rv : Int) : Int := futexWakeImpl rv

/-- `struct timespec`. -/
structure Timespec where
  tv_sec : Int
  tv_nsec : Int
  deriving DecidableEq

/-- `timeSpecFromTimePoint` for a clock whose duration counts nanoseconds (as
`system_clock` and `steady_clock` do): `count` is
`absTime.time_since_epoch().count()`.  `duration_cast` to seconds truncates. -/
def timeSpecFromTimePoint (count : Int) : Timespec :=
  let epoch := if count < 0 then 0 else count
  let secs := Int.tdiv epoch (10 ^ 9)
  let nanos := epoch - secs * 10 ^ 9
  ⟨secs, nanos⟩

/-- The assertions of the backend. -/
inductive Assertion where
  | oneDeadline
  | timeoutGiven
  | knownErrno
  | notTimedOut
  deriving DecidableEq

/-- The value a function returns, or the assertion that failed in it:
`oneDeadline` is `assert(absSystemTime == nullptr || absSteadyTime == nullptr)`,
`timeoutGiven` is `assert(timeout != nullptr)`, `knownErrno` is the
`assert(false)` of the `default` branch, `notTimedOut` is
`assert(rv != FutexResult::TIMEDOUT)`. -/
inductive Checked (α : Type) where
  | ok (value : α)
  | failed (which : Assertion)
  deriving DecidableEq

/-- `ETIMEDOUT` of `<cerrno>` on Linux. -/
def ETIMEDOUT : Int := 110

/-- `EINTR` of `<cerrno>` on Linux. -/
def EINTR : Int := 4

/-- `EWOULDBLOCK` of `<cerrno>` on Linux. -/
def EWOULDBLOCK : Int := 11

/-- `EINVAL` of `<cerrno>` on Linux. -/
def EINVAL : Int := 22

/-- The `timeout` that `nativeFutexWaitImpl` passes to the system call:
`nullptr` unless one of the absolute times is given. -/
def nativeFutexWaitTimeout (absSystemTime absSteadyTime : Option Int) : Option Timespec :=
  match absSystemTime with
  | some t => some (timeSpecFromTimePoint t)
  | none =>
    match absSteadyTime with
    | some t => some (timeSpecFromTimePoint t)
    | none => none

/-- `nativeFutexWaitImpl`: the absolute times are `nullptr` (`none`) or point
to a count of nanoseconds; `rv` and `errno` are what the `FUTEX_WAIT_BITSET`
system call leaves. -/
def nativeFutexWaitImpl (absSystemTime absSteadyTime : Option Int) (rv errno : Int) :
    Checked FutexResult :=
  if absSystemTime = none ∨ absSteadyTime = none then
    let timeout := nativeFutexWaitTimeout absSystemTime absSteadyTime
    if rv = 0 then
      .ok FutexResult.AWOKEN
    else if errno = ETIMEDOUT then
      if timeout ≠ none then .ok FutexResult.TIMEDOUT else .failed Assertion.timeoutGiven
    else if errno = EINTR then
      .ok FutexResult.INTERRUPTED
    else if errno = EWOULDBLOCK then
      .ok FutexResult.VALUE_CHANGED
    else
      .failed Assertion.knownErrno
  else
    .failed Assertion.oneDeadline

/-- The call of `futexWaitImpl` with five arguments, as it reaches the native
backend. -/
structure WaitImplCall where
  futex : Nat
  expected : Nat
  absSystemTime : Option Int
  absSteadyTime : Option Int
  waitMask : Nat
  deriving DecidableEq

/-- `futexWaitImpl` with five arguments, which hands over to
`nativeFutexWaitImpl`. -/
def futexWaitImpl (call : WaitImplCall) (rv errno : Int) : Checked FutexResult :=
  nativeFutexWaitImpl call.absSystemTime call.absSteadyTime rv errno

/-- The backend call that `futexWait(futex, expected, waitMask)` makes. -/
def futexWaitCall (futex expected waitMask : Nat) : WaitImplCall :=
  ⟨futex, expected, none, none, waitMask⟩

/-- `futexWait` over the native backend: the backend call, then the assertion
on its result. -/
def futexWaitNative (futex expected waitMask : Nat) (rv errno : Int) : Checked FutexResult :=
  match futexWaitImpl (futexWaitCall futex expected waitMask) rv errno with
  | .ok r =>
    match futexWait r with
    | some r => .ok r
    | none => .failed Assertion.notTimedOut
  | .failed a => .failed a

/-- The absolute times with which `Futex.hpp` calls `futexWaitImpl` with
five arguments: both null (`futexWait`, and `futexWaitUntil` at the sentinel),
`absSteadyTime` alone (the overload for a steady deadline) or `absSystemTime`
alone (the overload for the other deadlines).  The time is a count of
nanoseconds. -/
inductive Deadline where
  | unbounded
  | steady (time : Int)
  | system (time : Int)
  deriving DecidableEq

/-- The argument `absSystemTime` of the call. -/
def Deadline.absSystemTime : Deadline → Option Int
  | .system t => some t
  | _ => none

/-- The argument `absSteadyTime` of the call. -/
def Deadline.absSteadyTime : Deadline → Option Int
  | .steady t => some t
  | _ => none

/-- Modelled from the spec: the contract of the futex system call, which is
not among the sources.  A wait ends by timing out only when a timeout was
passed ("returns TIMEDOUT; only reachable when a deadline was supplied", "not
produced when no deadline is supplied"): `timeout` is the timeout passed, `rv`
and `errno` are what the call leaves. -/
def FutexWaitOutcome (timeout : Option Timespec) (rv errno : Int) : Prop :=
  rv ≠ 0 → errno = ETIMEDOUT → timeout ≠ none

/-! ## Futex.hpp: deadlines -/

/-- A clock type of `std::chrono` with its `time_point`: `tag` tells the clock
types apart (`std::is_same`), `max` is the count of `time_point::max()`, one
tick lasts `num / den` seconds. -/
structure ClockType where
  tag : Nat
  is_steady : Bool
  max : Int
  num : Nat
  den : Nat
  deriving DecidableEq

/-- `std::chrono::system_clock`, counting nanoseconds in a 64 bit integer. -/
def system_clock : ClockType := ⟨0, false, 2 ^ 63 - 1, 1, 10 ^ 9⟩

/-- `std::chrono::steady_clock`, counting nanoseconds in a 64 bit integer. -/
def steady_clock : ClockType := ⟨1, true, 2 ^ 63 - 1, 1, 10 ^ 9⟩

/-- The value a 64 bit signed integer holds after an operation whose exact
result is `x`: two's complement wrap-around. -/
def wrapInt64 (x : Int) : Int := (x + 2 ^ 63) % 2 ^ 64 - 2 ^ 63

/-- `std::chrono::duration_cast` of a count of ticks of `source` to ticks of
`target`: the ratio of the two periods is reduced to `num / den`, the count is
multiplied by `num` in a 64 bit integer and divided by `den`, truncating. -/
def duration_cast (source target : ClockType) (count : Int) : Int :=
  let n := source.num * target.den
  let d := source.den * target.num
  let num := n / Nat.gcd n d
  let den := d / Nat.gcd n d
  Int.tdiv (wrapInt64 (count * num)) den

/-- `time_point_conv<TargetClock>(time)`: the converted count, and the clocks
whose `now()` was called, in order.  `clockNow` and `targetNow` are what
`Clock::now()` and `TargetClock::now()` would answer; the difference and the
sum are formed in 64 bit integers. -/
def time_point_conv (target clock : ClockType) (time : Int) (clockNow targetNow : Int) :
    Int × List Nat :=
  if time = clock.max then
    (target.max, [])
  else if clock.tag = target.tag then
    (duration_cast clock target time, [])
  else
    (wrapInt64 (targetNow + duration_cast clock target (wrapInt64 (time - clockNow))),
      [clock.tag, target.tag])

/-- `futexWaitUntil(futex, expected, deadline, waitMask)`: the backend call it
makes and the clocks whose `now()` was called. -/
def futexWaitUntil (clock : ClockType) (futex expected : Nat) (deadline : Int)
    (waitMask : Nat) (clockNow targetNow : Int) : WaitImplCall × List Nat :=
  let target := if clock.is_steady then steady_clock else system_clock
  let conv := time_point_conv target clock deadline clockNow targetNow
  let converted := conv.1
  if converted = target.max then
    (⟨futex, expected, none, none, waitMask⟩, conv.2)
  else if target.is_steady then
    (⟨futex, expected, none, some converted, waitMask⟩, conv.2)
  else
    (⟨futex, expected, some converted, none, waitMask⟩, conv.2)

/-! ## Steps of `await`, counted -/

/-- The calls of the passes of `await` that found the condition false, one
pass per key: `prepareWait()`, `condition()`, `wait(key)`. -/
def passes {ε : Type} : List Key → List (Step ε)
  | [] => []
  | k :: ks =>
    Step.prepareWait k :: Step.condition (CondOutcome.value false) :: Step.wait k :: passes ks

/-- Whether the step is a `prepareWait()`. -/
def Step.isPrepareWait {ε : Type} : Step ε → Bool
  | .prepareWait _ => true
  | _ => false

/-- Whether the step is a `wait(key)` or a `cancelWait()`. -/
def Step.isWaitOrCancel {ε : Type} : Step ε → Bool
  | .wait _ => true
  | .cancelWait => true
  | _ => false

/-! ## Threads inside `wait` when a notify comes -/

/-- Where a registered thread stands in `wait(key)` at the moment the
`fetch_add` of a notify takes place: it has not yet evaluated the loop
condition; or it has loaded the word `loaded`, found the epoch of its key and
enters the backend wait afterwards; or it is blocked in the backend wait, with
`queue` blocked threads that a wake serves before it. -/
inductive Position where
  | beforeLoad
  | entering (loaded : Nat)
  | asleep (loaded : Nat) (queue : Nat)
  deriving DecidableEq

/-- Modelled from the spec: the backend wake, carried out by the kernel, which
is not among the sources: it "wakes up to `maxCount` threads currently blocked
on `address` whose wait mask intersects `wakeMask`".  A thread blocked on the
unit `waitIndex` with mask `waitMask`, with `queue` such threads served before
it, is woken exactly when `queue < maxCount`. -/
def wakeReaches (index : Nat) (maxCount : Int) (wakeMask : Nat)
    (waitIndex waitMask queue : Nat) : Bool :=
  decide (index = waitIndex) && decide (waitMask &&& wakeMask ≠ 0)
    && decide ((queue : Int) < maxCount)

/-- Modelled from the spec: the entry of the backend wait, carried out by the
kernel: "if the word at `address` no longer equals `expectedValue`, returns
VALUE_CHANGED immediately without sleeping", otherwise the thread blocks
(`none`). -/
def backendWaitEntry (word index expected : Nat) : Option FutexResult :=
  if futexAt kIsLittleEndian word index = expected then none
  else some FutexResult.VALUE_CHANGED

/-- Whether the backend calls of a notify wake the thread that `wait` left
blocked on the epoch half with `queue` blocked threads before it. -/
def wokenBy (calls : List Call) (queue : Nat) : Bool :=
  calls.any fun c =>
    match c with
    | Call.futexWake index count wakeMask =>
      wakeReaches index count wakeMask kEpochOffset kAllBits queue
    | Call.futexWait _ _ _ => false

/-- The `wait(key)` of a thread that stands at `pos` when `doNotify(n)` runs
on the word `val_`: `others1` are the operations other threads complete
between the `fetch_add` of the notify and the moment the thread's backend wait
is entered or comes back, `others2` those they complete before its next load.
A thread blocked in the backend comes back only when the wake call of the
notify reaches it. -/
def waitAfterNotify (n : Int) (val_ : Nat) (key : Key) (pos : Position)
    (others1 others2 : List Event) : WaitOutcome :=
  let r := doNotify n val_
  let word1 := runEvents others1 r.1
  let word2 := runEvents others2 word1
  match pos with
  | .beforeLoad => wait key word2 []
  | .entering loaded =>
    match backendWaitEntry word1 kEpochOffset key.epoch_ with
    | some rv => wait key loaded [⟨rv, word2⟩]
    | none => wait key loaded []
  | .asleep loaded queue =>
    if wokenBy r.2 queue then wait key loaded [⟨FutexResult.AWOKEN, word2⟩]
    else wait key loaded []

/-! ## Arithmetic of the packed word -/

theorem epochOf_eq_div (w : Nat) : epochOf w = w / 2 ^ 32 := by
  simp [epochOf, kEpochShift, Nat.shiftRight_eq_div_pow]

theorem waitersOf_eq_mod (w : Nat) : waitersOf w = w % 2 ^ 32 := by
  have h : kWaiterMask = 2 ^ 32 - 1 := by decide
  simp only [waitersOf, h]
  exact Nat.and_pow_two_sub_one_eq_mod w 32

theorem doNotify_val (n : Int) (w : Nat) :
    (doNotify n w).1 = (w + 2 ^ 32) % 2 ^ 64 := by
  have h : kAddEpoch = 2 ^ 32 := by decide
  simp only [doNotify]
  split_ifs <;> simp [fetch_add, h]

theorem prepareWait_val (w : Nat) : (prepareWait w).2 = (w + 1) % 2 ^ 64 := rfl

theorem prepareWait_key (w : Nat) : (prepareWait w).1.epoch_ = w / 2 ^ 32 % 2 ^ 32 := by
  simp [prepareWait, fetch_add, Key.ofUInt64, kEpochShift, Nat.shiftRight_eq_div_pow]

theorem cancelWait_val (w : Nat) : cancelWait w = (w + (2 ^ 64 - 1)) % 2 ^ 64 := rfl

/-! ## Claims -/

/-- C1: for every 64-bit state word `w`, `notify()` and `notifyAll()` store a
word whose epoch field is `(epoch w + 1) mod 2^32` and whose waiter count is
that of `w`; at epoch `2^32 - 1` the epoch wraps to 0. -/
theorem notify_bumps_epoch_only (w : Nat) :
    (epochOf (notify w).1 = (epochOf w + 1) % 2 ^ 32
      ∧ waitersOf (notify w).1 = waitersOf w)
    ∧ (epochOf (notifyAll w).1 = (epochOf w + 1) % 2 ^ 32
      ∧ waitersOf (notifyAll w).1 = waitersOf w)
    ∧ (epochOf w = 2 ^ 32 - 1 →
        epochOf (notify w).1 = 0 ∧ epochOf (notifyAll w).1 = 0) := by
  simp only [notify, notifyAll, doNotify_val, epochOf_eq_div, waitersOf_eq_mod]
  omega

/-- C1 at the last epoch, with 7 waiters registered: the epoch wraps to 0 and
the 7 waiters stay. -/
theorem notify_bumps_epoch_only_witness :
    epochOf (2 ^ 64 - 2 ^ 32 + 7) = 2 ^ 32 - 1
    ∧ (epochOf (notify (2 ^ 64 - 2 ^ 32 + 7)).1 = 0
      ∧ epochOf (notifyAll (2 ^ 64 - 2 ^ 32 + 7)).1 = 0)
    ∧ waitersOf (notify (2 ^ 64 - 2 ^ 32 + 7)).1 = waitersOf (2 ^ 64 - 2 ^ 32 + 7) :=
  ⟨by decide,
   (notify_bumps_epoch_only (2 ^ 64 - 2 ^ 32 + 7)).2.2 (by decide),
   (notify_bumps_epoch_only (2 ^ 64 - 2 ^ 32 + 7)).1.2⟩

/-- C2, as stated, fails on the word whose waiter count is `2^32 - 1`:
`prepareWait()` leaves waiter count 0, not `2^32`, and the carry reaches the
epoch. -/
theorem prepareWait_full_counterexample :
    2 ^ 32 - 1 < 2 ^ 64
    ∧ waitersOf (2 ^ 32 - 1) + 1 = 2 ^ 32
    ∧ waitersOf (prepareWait (2 ^ 32 - 1)).2 = 0
    ∧ waitersOf (prepareWait (2 ^ 32 - 1)).2 ≠ waitersOf (2 ^ 32 - 1) + 1
    ∧ epochOf (prepareWait (2 ^ 32 - 1)).2 = epochOf (2 ^ 32 - 1) + 1 := by
  decide

/-- C2, amended: for every state word `w`, `prepareWait()` returns a Key whose
epoch is the epoch field of `w`; when the waiter count of `w` is below
`2^32 - 1` the stored word has waiter count one more than `w` and the epoch of
`w`; at `2^32 - 1` the waiter count wraps to 0 and the carry reaches the
epoch, which becomes `(epoch w + 1) mod 2^32`. -/
theorem prepareWait_key_and_count (w : Nat) (hw : w < 2 ^ 64) :
    (prepareWait w).1.epoch_ = epochOf w
    ∧ (waitersOf w < 2 ^ 32 - 1 →
        waitersOf (prepareWait w).2 = waitersOf w + 1
          ∧ epochOf (prepareWait w).2 = epochOf w)
    ∧ (waitersOf w = 2 ^ 32 - 1 →
        waitersOf (prepareWait w).2 = 0
          ∧ epochOf (prepareWait w).2 = (epochOf w + 1) % 2 ^ 32) := by
  simp only [prepareWait_key, prepareWait_val, epochOf_eq_div, waitersOf_eq_mod]
  omega

/-- C2 amended, at epoch 5 with 3 waiters, and at epoch 5 with `2^32 - 1`
waiters, where the carry makes the epoch 6. -/
theorem prepareWait_key_and_count_witness :
    5 * 2 ^ 32 + 3 < 2 ^ 64
    ∧ waitersOf (5 * 2 ^ 32 + 3) < 2 ^ 32 - 1
    ∧ (prepareWait (5 * 2 ^ 32 + 3)).1.epoch_ = 5
    ∧ (waitersOf (prepareWait (5 * 2 ^ 32 + 3)).2 = waitersOf (5 * 2 ^ 32 + 3) + 1
        ∧ epochOf (prepareWait (5 * 2 ^ 32 + 3)).2 = epochOf (5 * 2 ^ 32 + 3))
    ∧ waitersOf (5 * 2 ^ 32 + (2 ^ 32 - 1)) = 2 ^ 32 - 1
    ∧ (waitersOf (prepareWait (5 * 2 ^ 32 + (2 ^ 32 - 1))).2 = 0
        ∧ epochOf (prepareWait (5 * 2 ^ 32 + (2 ^ 32 - 1))).2
            = (epochOf (5 * 2 ^ 32 + (2 ^ 32 - 1)) + 1) % 2 ^ 32) :=
  ⟨by decide, by decide,
   (prepareWait_key_and_count (5 * 2 ^ 32 + 3) (by decide)).1.trans (by decide),
   (prepareWait_key_and_count (5 * 2 ^ 32 + 3) (by decide)).2.1 (by decide),
   by decide,
   (prepareWait_key_and_count (5 * 2 ^ 32 + (2 ^ 32 - 1)) (by decide)).2.2 (by decide)⟩

/-- C6: `notify()` and `notifyAll()` reach the backend exactly when the waiter
count of the word before the increment is non-zero, then with one wake call on
the epoch half: `notify()` for at most 1 waiter, `notifyAll()` for at most
`INT_MAX = 2^31 - 1`. -/
theorem notify_wakes_iff_waiters (w : Nat) :
    (notify w).2
        = (if waitersOf w ≠ 0 then [Call.futexWake kEpochOffset 1 kAllBits] else [])
    ∧ (notifyAll w).2
        = (if waitersOf w ≠ 0 then [Call.futexWake kEpochOffset (2 ^ 31 - 1) kAllBits]
           else [])
    ∧ (((notify w).2 ≠ [] ↔ waitersOf w ≠ 0) ∧ ((notifyAll w).2 ≠ [] ↔ waitersOf w ≠ 0))
    ∧ (notify w).2.length ≤ 1 ∧ (notifyAll w).2.length ≤ 1 := by
  have hi : INT_MAX = 2 ^ 31 - 1 := rfl
  simp only [notify, notifyAll, doNotify, fetch_add, waitersOf, hi, UNLIKELY,
    decide_eq_true_eq]
  split_ifs <;> simp_all

/-- C7, as stated, fails at both ends of the waiter count: `cancelWait()` on
the zero word borrows from the epoch (the waiter count becomes `2^32 - 1`), and
`prepareWait()` on a full waiter count carries into it. -/
theorem waiter_change_epoch_counterexample :
    (epochOf 0 = 0 ∧ epochOf (cancelWait 0) = 2 ^ 32 - 1 ∧ waitersOf (cancelWait 0) = 2 ^ 32 - 1)
    ∧ (epochOf (2 ^ 32 - 1) = 0 ∧ epochOf (prepareWait (2 ^ 32 - 1)).2 = 1) := by
  decide

/-- C7, amended: `prepareWait()` on a word whose waiter count is below
`2^32 - 1` and `cancelWait()` on a word whose waiter count is at least 1 leave
the epoch field unchanged; the waiter count then moves by exactly one and stays
within `0 .. 2^32 - 1`. -/
theorem waiter_change_keeps_epoch (w : Nat) (hw : w < 2 ^ 64) :
    (waitersOf w < 2 ^ 32 - 1 →
      epochOf (prepareWait w).2 = epochOf w
        ∧ waitersOf (prepareWait w).2 = waitersOf w + 1)
    ∧ (1 ≤ waitersOf w →
      epochOf (cancelWait w) = epochOf w
        ∧ waitersOf (cancelWait w) + 1 = waitersOf w) := by
  simp only [prepareWait_val, cancelWait_val, epochOf_eq_div, waitersOf_eq_mod]
  omega

/-- C7 amended, at epoch 9 with one waiter. -/
theorem waiter_change_keeps_epoch_witness :
    9 * 2 ^ 32 + 1 < 2 ^ 64
    ∧ (epochOf (prepareWait (9 * 2 ^ 32 + 1)).2 = epochOf (9 * 2 ^ 32 + 1)
        ∧ waitersOf (prepareWait (9 * 2 ^ 32 + 1)).2 = waitersOf (9 * 2 ^ 32 + 1) + 1)
    ∧ (epochOf (cancelWait (9 * 2 ^ 32 + 1)) = epochOf (9 * 2 ^ 32 + 1)
        ∧ waitersOf (cancelWait (9 * 2 ^ 32 + 1)) + 1 = waitersOf (9 * 2 ^ 32 + 1)) :=
  ⟨by decide,
   (waiter_change_keeps_epoch (9 * 2 ^ 32 + 1) (by decide)).1 (by decide),
   (waiter_change_keeps_epoch (9 * 2 ^ 32 + 1) (by decide)).2 (by decide)⟩

/-- C9: on a state word whose waiter count is at least 1, `cancelWait()` stores
the word with the waiter count smaller by exactly 1 and the epoch untouched
(the word minus one); `cancelWait()` right after `prepareWait()` restores the
original word. -/
theorem cancelWait_decrements (w : Nat) (hw : w < 2 ^ 64) :
    (1 ≤ waitersOf w →
      waitersOf (cancelWait w) + 1 = waitersOf w
        ∧ epochOf (cancelWait w) = epochOf w
        ∧ cancelWait w + 1 = w)
    ∧ cancelWait (prepareWait w).2 = w := by
  simp only [prepareWait_val, cancelWait_val, epochOf_eq_div, waitersOf_eq_mod]
  omega

/-- C9 at epoch 2 with 4 waiters. -/
theorem cancelWait_decrements_witness :
    2 * 2 ^ 32 + 4 < 2 ^ 64 ∧ 1 ≤ waitersOf (2 * 2 ^ 32 + 4)
    ∧ (waitersOf (cancelWait (2 * 2 ^ 32 + 4)) + 1 = waitersOf (2 * 2 ^ 32 + 4)
        ∧ epochOf (cancelWait (2 * 2 ^ 32 + 4)) = epochOf (2 * 2 ^ 32 + 4)
        ∧ cancelWait (2 * 2 ^ 32 + 4) + 1 = 2 * 2 ^ 32 + 4)
    ∧ cancelWait (prepareWait (2 * 2 ^ 32 + 4)).2 = 2 * 2 ^ 32 + 4 :=
  ⟨by decide, by decide,
   (cancelWait_decrements (2 * 2 ^ 32 + 4) (by decide)).1 (by decide),
   (cancelWait_decrements (2 * 2 ^ 32 + 4) (by decide)).2⟩

/-! ## The loop of `wait` -/

theorem wait_of_epoch_ne (k : Key) (v : Nat) (ws : List Wakeup)
    (h : epochOf v ≠ k.epoch_) :
    wait k v ws = WaitOutcome.returned (fetch_add v kSubWaiter).2 [] := by
  cases ws <;> simp_all [wait, epochOf]

theorem wait_of_epoch_ne_val (k : Key) (v : Nat) (ws : List Wakeup)
    (h : epochOf v ≠ k.epoch_) :
    wait k v ws = WaitOutcome.returned ((v + (2 ^ 64 - 1)) % 2 ^ 64) [] :=
  wait_of_epoch_ne k v ws h

theorem wait_of_epoch_eq (k : Key) (v : Nat) (w : Wakeup) (rest : List Wakeup)
    (h : epochOf v = k.epoch_) (hrv : w.rv ≠ FutexResult.TIMEDOUT) :
    wait k v (w :: rest)
      = (wait k w.val_ rest).after (Call.futexWait kEpochOffset k.epoch_ kAllBits) := by
  simp_all [wait, epochOf, futexWait]

theorem wait_asleep (k : Key) (same : List Wakeup) :
    ∀ v : Nat, epochOf v = k.epoch_ →
      (∀ w ∈ same, w.rv ≠ FutexResult.TIMEDOUT ∧ epochOf w.val_ = k.epoch_) →
      wait k v same
        = WaitOutcome.asleep
            (List.replicate (same.length + 1) (Call.futexWait kEpochOffset k.epoch_ kAllBits)) := by
  induction same with
  | nil => intro v hv _; simp_all [wait, epochOf]
  | cons w rest ih =>
    intro v hv hall
    have hw := hall w (List.mem_cons_self _ _)
    rw [wait_of_epoch_eq k v w rest hv hw.1,
      ih w.val_ hw.2 (fun u hu => hall u (List.mem_cons_of_mem _ hu))]
    simp [WaitOutcome.after, List.replicate_succ]

theorem wait_returns (k : Key) (same : List Wakeup) (x : Wakeup) (rest : List Wakeup)
    (hx : x.rv ≠ FutexResult.TIMEDOUT) (hne : epochOf x.val_ ≠ k.epoch_) :
    ∀ v : Nat, epochOf v = k.epoch_ →
      (∀ w ∈ same, w.rv ≠ FutexResult.TIMEDOUT ∧ epochOf w.val_ = k.epoch_) →
      wait k v (same ++ x :: rest)
        = WaitOutcome.returned (fetch_add x.val_ kSubWaiter).2
            (List.replicate (same.length + 1) (Call.futexWait kEpochOffset k.epoch_ kAllBits)) := by
  induction same with
  | nil =>
    intro v hv _
    rw [List.nil_append, wait_of_epoch_eq k v x rest hv hx, wait_of_epoch_ne k x.val_ rest hne]
    simp [WaitOutcome.after]
  | cons w more ih =>
    intro v hv hall
    have hw := hall w (List.mem_cons_self _ _)
    rw [List.cons_append, wait_of_epoch_eq k v w _ hv hw.1,
      ih w.val_ hw.2 (fun u hu => hall u (List.mem_cons_of_mem _ hu))]
    simp [WaitOutcome.after, List.replicate_succ]

theorem futexAt_epochOffset (v : Nat) (hv : v < 2 ^ 64) :
    futexAt kIsLittleEndian v kEpochOffset = epochOf v := by
  have h1 : kIsLittleEndian = true := rfl
  have h2 : kEpochOffset = 1 := rfl
  simp only [futexAt, h1, h2, epochOf_eq_div, Nat.shiftRight_eq_div_pow]
  simp only [if_true]
  omega

/-- C3: `wait(k)` started on the word `v`, its backend waits coming back as
`same` (none with `TIMEDOUT`) while every word loaded so far has the epoch of
`k`: it has not returned, and has issued one backend wait per load, each on
the epoch half of `val_` with expected value `k`'s epoch.  When the next
backend wait comes back as `x` and the load then reads another epoch, `wait`
returns, having made no further backend call and one `fetch_add(kSubWaiter)`
on the word just loaded.  When already the first load reads another epoch it
returns with no backend call. -/
theorem wait_returns_only_on_new_epoch (k : Key) (v : Nat) (same : List Wakeup)
    (x : Wakeup) (rest : List Wakeup)
    (hsame : ∀ w ∈ same, w.rv ≠ FutexResult.TIMEDOUT ∧ epochOf w.val_ = k.epoch_)
    (hx : x.rv ≠ FutexResult.TIMEDOUT) (hne : epochOf x.val_ ≠ k.epoch_) :
    (epochOf v = k.epoch_ →
      wait k v same
          = WaitOutcome.asleep
              (List.replicate (same.length + 1)
                (Call.futexWait kEpochOffset k.epoch_ kAllBits))
      ∧ wait k v (same ++ x :: rest)
          = WaitOutcome.returned ((x.val_ + kSubWaiter) % 2 ^ 64)
              (List.replicate (same.length + 1)
                (Call.futexWait kEpochOffset k.epoch_ kAllBits)))
    ∧ (epochOf v ≠ k.epoch_ →
      wait k v (same ++ x :: rest) = WaitOutcome.returned ((v + kSubWaiter) % 2 ^ 64) [])
    ∧ (v < 2 ^ 64 → futexAt kIsLittleEndian v kEpochOffset = epochOf v)
    ∧ (x.val_ < 2 ^ 64 → 1 ≤ waitersOf x.val_ →
        waitersOf ((x.val_ + kSubWaiter) % 2 ^ 64) + 1 = waitersOf x.val_
          ∧ epochOf ((x.val_ + kSubWaiter) % 2 ^ 64) = epochOf x.val_) := by
  refine ⟨fun hv => ⟨wait_asleep k same v hv hsame, ?_⟩, fun hv => ?_,
    futexAt_epochOffset v, ?_⟩
  · exact wait_returns k same x rest hx hne v hv hsame
  · exact wait_of_epoch_ne k v _ hv
  · have h : kSubWaiter = 2 ^ 64 - 1 := rfl
    simp only [h, epochOf_eq_div, waitersOf_eq_mod]
    omega

/-- C3 on a run with key epoch 3: two wake-ups (one `AWOKEN`, one
`INTERRUPTED`) that still load epoch 3, then a `VALUE_CHANGED` after which
epoch 4 is loaded. -/
theorem wait_returns_only_on_new_epoch_witness :
    wait ⟨3⟩ (3 * 2 ^ 32 + 1)
        [⟨FutexResult.AWOKEN, 3 * 2 ^ 32 + 1⟩, ⟨FutexResult.INTERRUPTED, 3 * 2 ^ 32 + 2⟩]
      = WaitOutcome.asleep (List.replicate 3 (Call.futexWait kEpochOffset 3 kAllBits))
    ∧ wait ⟨3⟩ (3 * 2 ^ 32 + 1)
        [⟨FutexResult.AWOKEN, 3 * 2 ^ 32 + 1⟩, ⟨FutexResult.INTERRUPTED, 3 * 2 ^ 32 + 2⟩,
         ⟨FutexResult.VALUE_CHANGED, 4 * 2 ^ 32 + 2⟩]
      = WaitOutcome.returned ((4 * 2 ^ 32 + 2 + kSubWaiter) % 2 ^ 64)
          (List.replicate 3 (Call.futexWait kEpochOffset 3 kAllBits)) :=
  (wait_returns_only_on_new_epoch ⟨3⟩ (3 * 2 ^ 32 + 1)
    [⟨FutexResult.AWOKEN, 3 * 2 ^ 32 + 1⟩, ⟨FutexResult.INTERRUPTED, 3 * 2 ^ 32 + 2⟩]
    ⟨FutexResult.VALUE_CHANGED, 4 * 2 ^ 32 + 2⟩ []
    (by decide) (by decide) (by decide)).1 (by decide)

/-! ## Histories -/

theorem apply_prepareWait (v : Nat) : Event.prepareWait.apply v = (v + 1) % 2 ^ 64 := rfl

theorem apply_cancelWait (v : Nat) :
    Event.cancelWait.apply v = (v + (2 ^ 64 - 1)) % 2 ^ 64 := rfl

theorem apply_waitReturn (v : Nat) :
    Event.waitReturn.apply v = (v + (2 ^ 64 - 1)) % 2 ^ 64 := rfl

theorem apply_notify (v : Nat) : Event.notify.apply v = (v + 2 ^ 32) % 2 ^ 64 :=
  doNotify_val 1 v

theorem apply_notifyAll (v : Nat) : Event.notifyAll.apply v = (v + 2 ^ 32) % 2 ^ 64 :=
  doNotify_val INT_MAX v

theorem runEvents_cons (e : Event) (es : List Event) (v : Nat) :
    runEvents (e :: es) v = runEvents es (e.apply v) := rfl

/-- A well-formed history run on the word `n * 2^32 + (r + x)`, where `r`
counts the registrations the history may consume and `x` further ones it
leaves alone. -/
theorem runEvents_wellFormed (cap x : Nat) (hcap : cap + x ≤ 2 ^ 32) :
    ∀ (es : List Event) (n r : Nat), n < 2 ^ 32 → r < cap →
      wellFormed cap r es = true →
      runEvents es (n * 2 ^ 32 + (r + x))
          = ((n + notifies es) % 2 ^ 32) * 2 ^ 32 + (outstanding r es + x)
        ∧ outstanding r es < cap := by
  intro es
  induction es with
  | nil =>
    intro n r hn hr _
    simp only [runEvents, notifies, outstanding]
    omega
  | cons e es ih =>
    intro n r hn hr hwf
    cases e with
    | prepareWait =>
      simp only [wellFormed, Bool.and_eq_true, decide_eq_true_eq] at hwf
      have h := ih n (r + 1) hn hwf.1 hwf.2
      have e1 : (n * 2 ^ 32 + (r + x) + 1) % 2 ^ 64 = n * 2 ^ 32 + (r + 1 + x) := by omega
      rw [runEvents_cons, apply_prepareWait, e1]
      simp only [notifies, outstanding]
      exact h
    | cancelWait =>
      simp only [wellFormed, Bool.and_eq_true, decide_eq_true_eq] at hwf
      have h := ih n (r - 1) hn (by omega) hwf.2
      have e1 : (n * 2 ^ 32 + (r + x) + (2 ^ 64 - 1)) % 2 ^ 64 = n * 2 ^ 32 + (r - 1 + x) := by
        omega
      rw [runEvents_cons, apply_cancelWait, e1]
      simp only [notifies, outstanding]
      exact h
    | waitReturn =>
      simp only [wellFormed, Bool.and_eq_true, decide_eq_true_eq] at hwf
      have h := ih n (r - 1) hn (by omega) hwf.2
      have e1 : (n * 2 ^ 32 + (r + x) + (2 ^ 64 - 1)) % 2 ^ 64 = n * 2 ^ 32 + (r - 1 + x) := by
        omega
      rw [runEvents_cons, apply_waitReturn, e1]
      simp only [notifies, outstanding]
      exact h
    | notify =>
      simp only [wellFormed] at hwf
      have h := ih ((n + 1) % 2 ^ 32) r (Nat.mod_lt _ (by norm_num)) hr hwf
      have e1 : (n * 2 ^ 32 + (r + x) + 2 ^ 32) % 2 ^ 64
          = (n + 1) % 2 ^ 32 * 2 ^ 32 + (r + x) := by omega
      have e2 : (n + (notifies es + 1)) % 2 ^ 32 = ((n + 1) % 2 ^ 32 + notifies es) % 2 ^ 32 := by
        omega
      rw [runEvents_cons, apply_notify, e1]
      simp only [notifies, outstanding]
      rw [e2]
      exact h
    | notifyAll =>
      simp only [wellFormed] at hwf
      have h := ih ((n + 1) % 2 ^ 32) r (Nat.mod_lt _ (by norm_num)) hr hwf
      have e1 : (n * 2 ^ 32 + (r + x) + 2 ^ 32) % 2 ^ 64
          = (n + 1) % 2 ^ 32 * 2 ^ 32 + (r + x) := by omega
      have e2 : (n + (notifies es + 1)) % 2 ^ 32 = ((n + 1) % 2 ^ 32 + notifies es) % 2 ^ 32 := by
        omega
      rw [runEvents_cons, apply_notifyAll, e1]
      simp only [notifies, outstanding]
      rw [e2]
      exact h

theorem wellFormed_append (cap : Nat) (pre post : List Event) :
    ∀ r : Nat, wellFormed cap r (pre ++ post) = true →
      wellFormed cap r pre = true ∧ wellFormed cap (outstanding r pre) post = true := by
  induction pre with
  | nil => intro r h; exact ⟨rfl, h⟩
  | cons e es ih =>
    intro r h
    cases e <;>
      simp only [List.cons_append, wellFormed, outstanding, Bool.and_eq_true,
        decide_eq_true_eq] at h ⊢
    · exact ⟨⟨h.1, (ih _ h.2).1⟩, (ih _ h.2).2⟩
    · exact ⟨⟨h.1, (ih _ h.2).1⟩, (ih _ h.2).2⟩
    · exact ⟨⟨h.1, (ih _ h.2).1⟩, (ih _ h.2).2⟩
    · exact ih _ h
    · exact ih _ h

theorem outstanding_append (pre post : List Event) :
    ∀ r : Nat, outstanding r (pre ++ post) = outstanding (outstanding r pre) post := by
  induction pre with
  | nil => intro r; rfl
  | cons e es ih => intro r; cases e <;> exact ih _

theorem runEvents_append (pre post : List Event) :
    ∀ v : Nat, runEvents (pre ++ post) v = runEvents post (runEvents pre v) := by
  induction pre with
  | nil => intro v; rfl
  | cons e es ih => intro v; exact ih _

theorem notifies_of_registrations (es : List Event)
    (h : ∀ e ∈ es, e.isRegistration = true) : notifies es = 0 := by
  induction es with
  | nil => rfl
  | cons e es ih =>
    have he := h e (List.mem_cons_self _ _)
    have ht := ih (fun u hu => h u (List.mem_cons_of_mem _ hu))
    cases e <;> simp_all [notifies, Event.isRegistration]

theorem outstanding_balance (cap : Nat) (es : List Event) :
    ∀ r : Nat, wellFormed cap r es = true →
      outstanding r es + (es.count Event.cancelWait + es.count Event.waitReturn)
        = r + es.count Event.prepareWait := by
  induction es with
  | nil => intro r _; simp [outstanding]
  | cons e es ih =>
    intro r h
    cases e <;>
      simp only [wellFormed, Bool.and_eq_true, decide_eq_true_eq] at h <;>
      simp only [outstanding, List.count_cons, beq_iff_eq, reduceCtorEq, if_true, if_false]
    · have := ih _ h.2; omega
    · have := ih _ h.2; omega
    · have := ih _ h.2; omega
    · have := ih _ h; omega
    · have := ih _ h; omega

theorem history_from_zero (h : List Event) (hwf : wellFormed (2 ^ 32) 0 h = true) :
    runEvents h 0 = notifies h % 2 ^ 32 * 2 ^ 32 + outstanding 0 h
      ∧ outstanding 0 h < 2 ^ 32 := by
  have key := runEvents_wellFormed (2 ^ 32) 0 (by norm_num) h 0 0 (by norm_num) (by norm_num) hwf
  simpa using key

theorem pack_eq (n r : Nat) (hr : r < 2 ^ 32) :
    (n <<< kEpochShift) ||| r = n * 2 ^ 32 + r := by
  have h := Nat.mul_add_lt_is_or hr n
  have hs : kEpochShift = 32 := rfl
  rw [Nat.shiftLeft_eq, hs, Nat.mul_comm n, ← h]

/-- A history of registrations only, run on a word with room for `x ≤ 1`
further registration. -/
theorem runEvents_registrations (x : Nat) (hx : x ≤ 1) (w : Nat) (os : List Event)
    (hw : w < 2 ^ 64) (hfree : w % 2 ^ 32 + 1 < 2 ^ 32)
    (hreg : ∀ e ∈ os, e.isRegistration = true)
    (hwf : wellFormed (2 ^ 32 - 1) (w % 2 ^ 32) os = true) :
    runEvents os (w + x) = w / 2 ^ 32 * 2 ^ 32 + (outstanding (w % 2 ^ 32) os + x)
      ∧ outstanding (w % 2 ^ 32) os < 2 ^ 32 - 1 := by
  have key := runEvents_wellFormed (2 ^ 32 - 1) x (by omega) os (w / 2 ^ 32) (w % 2 ^ 32)
    (by omega) (by omega) hwf
  rw [notifies_of_registrations os hreg] at key
  have e1 : w / 2 ^ 32 * 2 ^ 32 + (w % 2 ^ 32 + x) = w + x := by omega
  have e2 : (w / 2 ^ 32 + 0) % 2 ^ 32 = w / 2 ^ 32 := by omega
  rw [e1, e2] at key
  exact key

/-- C8: from the zero word of a fresh `EventCount`, after a history in which
every `cancelWait` and every return of `wait` consumes an outstanding
registration and fewer than `2^32` registrations are outstanding at any time,
the word is `(N mod 2^32) << 32 | R`, with `N` the number of notifies and `R`
the number of outstanding registrations (the `prepareWait`s not yet consumed);
the same holds after every prefix, and every decrement in the history meets a
waiter count of at least 1. -/
theorem history_word (h : List Event) (hwf : wellFormed (2 ^ 32) 0 h = true) :
    runEvents h 0 = ((notifies h % 2 ^ 32) <<< kEpochShift) ||| outstanding 0 h
    ∧ epochOf (runEvents h 0) = notifies h % 2 ^ 32
    ∧ waitersOf (runEvents h 0) = outstanding 0 h
    ∧ outstanding 0 h + (h.count Event.cancelWait + h.count Event.waitReturn)
        = h.count Event.prepareWait
    ∧ ∀ pre post : List Event, h = pre ++ post →
        runEvents pre 0 = ((notifies pre % 2 ^ 32) <<< kEpochShift) ||| outstanding 0 pre
        ∧ ∀ e rest, post = e :: rest → e = Event.cancelWait ∨ e = Event.waitReturn →
            1 ≤ waitersOf (runEvents pre 0) := by
  obtain ⟨hrun, hlt⟩ := history_from_zero h hwf
  have hbal := outstanding_balance (2 ^ 32) h 0 hwf
  refine ⟨?_, ?_, ?_, by omega, ?_⟩
  · rw [pack_eq _ _ hlt]; exact hrun
  · rw [hrun, epochOf_eq_div]; omega
  · rw [hrun, waitersOf_eq_mod]; omega
  · intro pre post hsplit
    subst hsplit
    obtain ⟨hpre, hpost⟩ := wellFormed_append (2 ^ 32) pre post 0 hwf
    obtain ⟨hrun1, hlt1⟩ := history_from_zero pre hpre
    refine ⟨by rw [pack_eq _ _ hlt1]; exact hrun1, ?_⟩
    intro e rest hpost2 he
    subst hpost2
    have h1 : 1 ≤ outstanding 0 pre := by
      rcases he with he | he <;> subst he <;>
        simp only [wellFormed, Bool.and_eq_true, decide_eq_true_eq] at hpost <;>
        exact hpost.1
    rw [hrun1, waitersOf_eq_mod]; omega

/-- C8 on a history with two notifies, two registrations, one consumed by a
returning `wait` and one by `cancelWait`. -/
theorem history_word_witness :
    wellFormed (2 ^ 32) 0
        [Event.prepareWait, Event.notify, Event.prepareWait, Event.waitReturn,
         Event.notifyAll, Event.cancelWait, Event.prepareWait] = true
    ∧ runEvents
        [Event.prepareWait, Event.notify, Event.prepareWait, Event.waitReturn,
         Event.notifyAll, Event.cancelWait, Event.prepareWait] 0
      = ((2 % 2 ^ 32) <<< kEpochShift) ||| 1 :=
  ⟨by decide,
   (history_word
      [Event.prepareWait, Event.notify, Event.prepareWait, Event.waitReturn,
       Event.notifyAll, Event.cancelWait, Event.prepareWait] (by decide)).1⟩

/-- C4, as stated, fails when the other threads' `cancelWait` calls outnumber
the registrations there are: on the zero word, `prepareWait()` gives the key
of epoch 0, two `cancelWait()` by another thread borrow from the epoch, and
after `notify()` the epoch is 0 again, so `wait(k)` calls the backend and does
not return. -/
theorem no_lost_wakeup_counterexample :
    (prepareWait 0).1.epoch_ = 0
    ∧ epochOf (notify (runEvents [Event.cancelWait, Event.cancelWait] (prepareWait 0).2)).1 = 0
    ∧ wait (prepareWait 0).1
        (notify (runEvents [Event.cancelWait, Event.cancelWait] (prepareWait 0).2)).1 []
      = WaitOutcome.asleep [Call.futexWait kEpochOffset 0 kAllBits] := by
  decide

/-- C4, amended: `k` is the Key of `prepareWait()` on the word `w`; other
threads then complete the `prepareWait` / `cancelWait` / `wait`-return
operations `os1`, one `notify()` or `notifyAll()` follows, then the other
threads' operations `os2`; each decrement of the other threads consumes a
registration other than the one of `k`, and fewer than `2^32` registrations
are outstanding at any time.  Then the epoch differs from the epoch of `k`,
`wait(k)` returns without a backend call, and it stores the word that the
other threads' operations and the notify alone would have produced from `w`:
its waiter count is that of `w` plus the other threads' registrations minus
their decrements. -/
theorem no_lost_wakeup (w : Nat) (os1 os2 : List Event) (ws : List Wakeup)
    (hw : w < 2 ^ 64) (hfree : waitersOf w + 1 < 2 ^ 32)
    (hreg : ∀ e ∈ os1 ++ os2, e.isRegistration = true)
    (hwf : wellFormed (2 ^ 32 - 1) (waitersOf w) (os1 ++ os2) = true) :
    (notifyAll (runEvents os1 (prepareWait w).2)).1
        = (notify (runEvents os1 (prepareWait w).2)).1
    ∧ epochOf (runEvents os2 (notify (runEvents os1 (prepareWait w).2)).1)
        ≠ (prepareWait w).1.epoch_
    ∧ wait (prepareWait w).1 (runEvents os2 (notify (runEvents os1 (prepareWait w).2)).1) ws
        = WaitOutcome.returned (runEvents os2 (notify (runEvents os1 w)).1) []
    ∧ waitersOf (runEvents os2 (notify (runEvents os1 w)).1)
        = outstanding (waitersOf w) (os1 ++ os2)
    ∧ outstanding (waitersOf w) (os1 ++ os2)
          + ((os1 ++ os2).count Event.cancelWait + (os1 ++ os2).count Event.waitReturn)
        = waitersOf w + (os1 ++ os2).count Event.prepareWait := by
  have hbal := outstanding_balance (2 ^ 32 - 1) (os1 ++ os2) (waitersOf w) hwf
  simp only [waitersOf_eq_mod] at hfree hwf hbal ⊢
  obtain ⟨hwf1, hwf2⟩ := wellFormed_append _ os1 os2 _ hwf
  have hreg1 : ∀ e ∈ os1, e.isRegistration = true :=
    fun e he => hreg e (List.mem_append_left _ he)
  have hreg2 : ∀ e ∈ os2, e.isRegistration = true :=
    fun e he => hreg e (List.mem_append_right _ he)
  -- the run with the registration of `k`, and the run without it
  obtain ⟨hA1, hr1⟩ := runEvents_registrations 1 (le_refl 1) w os1 hw hfree hreg1 hwf1
  obtain ⟨hB1, -⟩ := runEvents_registrations 0 (Nat.zero_le 1) w os1 hw hfree hreg1 hwf1
  rw [Nat.add_zero] at hB1
  have hprep : (prepareWait w).2 = w + 1 := by rw [prepareWait_val]; omega
  have hkey : (prepareWait w).1.epoch_ = w / 2 ^ 32 := by rw [prepareWait_key]; omega
  simp only [notifyAll, notify, doNotify_val]
  rw [hprep, hA1, hB1, hkey, outstanding_append]
  rw [outstanding_append] at hbal
  generalize outstanding (w % 2 ^ 32) os1 = r1 at *
  -- the word after the notify, without the registration of `k`
  have hw2 : (w / 2 ^ 32 * 2 ^ 32 + (r1 + 0) + 2 ^ 32) % 2 ^ 64 < 2 ^ 64 :=
    Nat.mod_lt _ (by norm_num)
  have hm : (w / 2 ^ 32 * 2 ^ 32 + (r1 + 0) + 2 ^ 32) % 2 ^ 64 % 2 ^ 32 = r1 := by omega
  have hd : (w / 2 ^ 32 * 2 ^ 32 + (r1 + 0) + 2 ^ 32) % 2 ^ 64 / 2 ^ 32
      = (w / 2 ^ 32 + 1) % 2 ^ 32 := by omega
  have hplus : (w / 2 ^ 32 * 2 ^ 32 + (r1 + 1) + 2 ^ 32) % 2 ^ 64
      = (w / 2 ^ 32 * 2 ^ 32 + (r1 + 0) + 2 ^ 32) % 2 ^ 64 + 1 := by omega
  rw [hplus]
  generalize (w / 2 ^ 32 * 2 ^ 32 + (r1 + 0) + 2 ^ 32) % 2 ^ 64 = w2 at *
  subst hm
  obtain ⟨hA2, hr2⟩ := runEvents_registrations 1 (le_refl 1) w2 os2 hw2 (by omega) hreg2 hwf2
  obtain ⟨hB2, -⟩ := runEvents_registrations 0 (Nat.zero_le 1) w2 os2 hw2 (by omega) hreg2 hwf2
  rw [Nat.add_zero] at hB2
  rw [hA2, hB2]
  generalize outstanding (w2 % 2 ^ 32) os2 = r2 at *
  have hne : epochOf (w2 / 2 ^ 32 * 2 ^ 32 + (r2 + 1)) ≠ w / 2 ^ 32 := by
    rw [epochOf_eq_div]; omega
  refine ⟨trivial, hne, ?_, ?_, ?_⟩
  · have hk : (prepareWait w).1 = ⟨w / 2 ^ 32⟩ := by
      cases hp : (prepareWait w).1
      rw [hp] at hkey
      exact congrArg Key.mk hkey
    have hdec : (w2 / 2 ^ 32 * 2 ^ 32 + (r2 + 1) + (2 ^ 64 - 1)) % 2 ^ 64
        = w2 / 2 ^ 32 * 2 ^ 32 + (r2 + 0) := by omega
    rw [hk, wait_of_epoch_ne_val _ _ _ hne, hdec]
  · omega
  · exact hbal

/-- C4 amended, at epoch 7 with two registrations of other threads: they
register once and leave twice before the `notify()`, then leave once and
register once. -/
theorem no_lost_wakeup_witness :
    7 * 2 ^ 32 + 2 < 2 ^ 64
    ∧ wellFormed (2 ^ 32 - 1) (waitersOf (7 * 2 ^ 32 + 2))
        ([Event.prepareWait, Event.cancelWait, Event.waitReturn]
          ++ [Event.waitReturn, Event.prepareWait]) = true
    ∧ wait (prepareWait (7 * 2 ^ 32 + 2)).1
        (runEvents [Event.waitReturn, Event.prepareWait]
          (notify (runEvents [Event.prepareWait, Event.cancelWait, Event.waitReturn]
            (prepareWait (7 * 2 ^ 32 + 2)).2)).1) []
      = WaitOutcome.returned
          (runEvents [Event.waitReturn, Event.prepareWait]
            (notify (runEvents [Event.prepareWait, Event.cancelWait, Event.waitReturn]
              (7 * 2 ^ 32 + 2))).1) [] :=
  ⟨by decide, by decide,
   (no_lost_wakeup (7 * 2 ^ 32 + 2) [Event.prepareWait, Event.cancelWait, Event.waitReturn]
      [Event.waitReturn, Event.prepareWait] [] (by decide) (by decide) (by decide)
      (by decide)).2.2.1⟩

/-- C10: when the first evaluation of the condition yields true,
`await(condition)` returns after that one evaluation, with `val_` as it found
it and without `prepareWait`, `cancelWait`, `wait` or a backend call. -/
theorem await_fast_path {ε : Type} (v : Nat) (rounds : List (Round ε)) :
    await (CondOutcome.value true) v rounds
      = ⟨AwaitExit.returned v, [Step.condition (CondOutcome.value true)], []⟩ :=
  rfl

/-! ## The loop of `await` -/

theorem awaitLoop_true {ε : Type} (v : Nat) (r : Round ε) (rest : List (Round ε))
    (h : r.cond = CondOutcome.value true) :
    awaitLoop v (r :: rest)
      = ⟨AwaitExit.returned (cancelWait (runEvents r.during (prepareWait v).2)),
          [Step.prepareWait (prepareWait v).1, Step.condition (CondOutcome.value true),
            Step.cancelWait], []⟩ := by
  simp only [awaitLoop, h]

theorem awaitLoop_raise {ε : Type} (v : Nat) (r : Round ε) (rest : List (Round ε)) (err : ε)
    (h : r.cond = CondOutcome.raise err) :
    awaitLoop v (r :: rest)
      = ⟨AwaitExit.threw err (cancelWait (runEvents r.during (prepareWait v).2)),
          [Step.prepareWait (prepareWait v).1, Step.condition (CondOutcome.raise err),
            Step.cancelWait], []⟩ := by
  simp only [awaitLoop, h]

theorem awaitLoop_false_returned {ε : Type} (v : Nat) (r : Round ε) (rest : List (Round ε))
    (v2 : Nat) (cs : List Call) (h : r.cond = CondOutcome.value false)
    (hw : wait (prepareWait v).1 (runEvents r.during (prepareWait v).2)
            (seen (runEvents r.during (prepareWait v).2) r.wakeups)
          = WaitOutcome.returned v2 cs) :
    awaitLoop v (r :: rest)
      = (awaitLoop v2 rest).after
          [Step.prepareWait (prepareWait v).1, Step.condition (CondOutcome.value false),
            Step.wait (prepareWait v).1] cs := by
  simp only [awaitLoop, h, hw]

theorem awaitLoop_false_asleep {ε : Type} (v : Nat) (r : Round ε) (rest : List (Round ε))
    (cs : List Call) (h : r.cond = CondOutcome.value false)
    (hw : wait (prepareWait v).1 (runEvents r.during (prepareWait v).2)
            (seen (runEvents r.during (prepareWait v).2) r.wakeups)
          = WaitOutcome.asleep cs) :
    awaitLoop v (r :: rest)
      = ⟨AwaitExit.asleep,
          [Step.prepareWait (prepareWait v).1, Step.condition (CondOutcome.value false),
            Step.wait (prepareWait v).1], cs⟩ := by
  simp only [awaitLoop, h, hw]

theorem awaitLoop_false_aborted {ε : Type} (v : Nat) (r : Round ε) (rest : List (Round ε))
    (cs : List Call) (h : r.cond = CondOutcome.value false)
    (hw : wait (prepareWait v).1 (runEvents r.during (prepareWait v).2)
            (seen (runEvents r.during (prepareWait v).2) r.wakeups)
          = WaitOutcome.aborted cs) :
    awaitLoop v (r :: rest)
      = ⟨AwaitExit.aborted,
          [Step.prepareWait (prepareWait v).1, Step.condition (CondOutcome.value false),
            Step.wait (prepareWait v).1], cs⟩ := by
  simp only [awaitLoop, h, hw]

theorem runEvents_notify_only (os : List Event) :
    ∀ v : Nat, os.all (fun e => !e.isRegistration) = true →
      runEvents os v % 2 ^ 32 = v % 2 ^ 32 := by
  induction os with
  | nil => intro v _; rfl
  | cons e es ih =>
    intro v h
    simp only [List.all_cons, Bool.and_eq_true] at h
    rw [runEvents_cons, ih _ h.2]
    cases e
    · simp [Event.isRegistration] at h
    · simp [Event.isRegistration] at h
    · simp [Event.isRegistration] at h
    · rw [apply_notify]; omega
    · rw [apply_notifyAll]; omega

theorem after_returned (c : Call) (o : WaitOutcome) (v2 : Nat) (cs : List Call)
    (h : o.after c = WaitOutcome.returned v2 cs) :
    ∃ cs2, o = WaitOutcome.returned v2 cs2 := by
  cases o <;> simp [WaitOutcome.after] at h
  exact ⟨_, by rw [h.1]⟩

theorem wait_seen_notify_only (k : Key) (wk : List (FutexResult × List Event)) :
    ∀ (v v2 : Nat) (cs : List Call),
      wk.all (fun w => w.2.all (fun e => !e.isRegistration)) = true →
      wait k v (seen v wk) = WaitOutcome.returned v2 cs →
      v2 % 2 ^ 32 = (v + (2 ^ 32 - 1)) % 2 ^ 32 := by
  induction wk with
  | nil =>
    intro v v2 cs _ h
    by_cases hv : epochOf v = k.epoch_
    · simp [seen, wait, epochOf] at h hv
      simp [hv] at h
    · rw [wait_of_epoch_ne_val k v _ hv] at h
      have h1 := (WaitOutcome.returned.inj h).1
      omega
  | cons w rest ih =>
    intro v v2 cs hq h
    simp only [List.all_cons, Bool.and_eq_true] at hq
    by_cases hv : epochOf v = k.epoch_
    · obtain ⟨rv, others⟩ := w
      by_cases hrv : rv = FutexResult.TIMEDOUT
      · subst hrv
        simp [seen, wait, epochOf, futexWait] at h hv
        simp [hv] at h
      · rw [seen, wait_of_epoch_eq k v _ _ hv hrv] at h
        obtain ⟨cs2, h2⟩ := after_returned _ _ _ _ h
        have := ih _ _ _ hq.2 h2
        have hm := runEvents_notify_only others v hq.1
        simp only at hm this
        omega
    · rw [wait_of_epoch_ne_val k v _ hv] at h
      have h1 := (WaitOutcome.returned.inj h).1
      omega

theorem awaitLoop_throws {ε : Type} (e : ε) (rounds : List (Round ε)) :
    ∀ v : Nat, Step.condition (CondOutcome.raise e) ∈ (awaitLoop v rounds).steps →
      ∃ v2 pre k,
        (awaitLoop v rounds).exit = AwaitExit.threw e v2
        ∧ (awaitLoop v rounds).steps
            = pre ++ [Step.prepareWait k, Step.condition (CondOutcome.raise e), Step.cancelWait]
        ∧ Step.cancelWait ∉ pre
        ∧ ((∀ r ∈ rounds, r.othersOnlyNotify = true) → v2 % 2 ^ 32 = v % 2 ^ 32) := by
  induction rounds with
  | nil => intro v h; simp [awaitLoop] at h
  | cons r rest ih =>
    intro v h
    cases hc : r.cond with
    | value b =>
      cases b with
      | true =>
        rw [awaitLoop_true v r rest hc] at h
        simp at h
      | false =>
        cases hw : wait (prepareWait v).1 (runEvents r.during (prepareWait v).2)
            (seen (runEvents r.during (prepareWait v).2) r.wakeups) with
        | returned v1 cs =>
          rw [awaitLoop_false_returned v r rest v1 cs hc hw] at h ⊢
          simp only [AwaitRun.after, List.mem_append, List.mem_cons, List.mem_singleton,
            reduceCtorEq, Step.condition.injEq, or_false, false_or,
            List.not_mem_nil] at h
          obtain ⟨v2, pre, k, hexit, hsteps, hpre, hq⟩ := ih v1 h
          refine ⟨v2, [Step.prepareWait (prepareWait v).1,
            Step.condition (CondOutcome.value false), Step.wait (prepareWait v).1] ++ pre, k,
            hexit, ?_, ?_, ?_⟩
          · simp only [AwaitRun.after, hsteps, List.append_assoc]
          · simp [hpre]
          · intro hall
            have hr := hall r (List.mem_cons_self _ _)
            simp only [Round.othersOnlyNotify, Bool.and_eq_true] at hr
            have h1 := hq (fun u hu => hall u (List.mem_cons_of_mem _ hu))
            have h2 := wait_seen_notify_only _ _ _ _ _ hr.2 hw
            have h3 := runEvents_notify_only r.during (prepareWait v).2 hr.1
            rw [prepareWait_val] at h2 h3
            omega
        | asleep cs =>
          rw [awaitLoop_false_asleep v r rest cs hc hw] at h
          simp at h
        | aborted cs =>
          rw [awaitLoop_false_aborted v r rest cs hc hw] at h
          simp at h
    | raise err =>
      rw [awaitLoop_raise v r rest err hc] at h ⊢
      simp at h
      subst h
      refine ⟨_, [], _, rfl, rfl, by simp, ?_⟩
      intro hall
      have hr := hall r (List.mem_cons_self _ _)
      simp only [Round.othersOnlyNotify, Bool.and_eq_true] at hr
      have h3 := runEvents_notify_only r.during (prepareWait v).2 hr.1
      rw [prepareWait_val] at h3
      rw [cancelWait_val, prepareWait_val]
      omega

/-- C5: when an evaluation of `condition()` inside `await()` throws `e`,
`await()` ends by rethrowing `e`.  When it is the first (fast path) evaluation
the run consists of that evaluation alone and `val_` is untouched.  Otherwise
the run ends with `prepareWait()`, the throwing evaluation and one
`cancelWait()`, and no `cancelWait()` was made before.  When the other threads
only notify meanwhile, the waiter count at exit is the waiter count at
entry. -/
theorem await_rethrows {ε : Type} (first : CondOutcome ε) (v : Nat)
    (rounds : List (Round ε)) (e : ε)
    (hraise : Step.condition (CondOutcome.raise e) ∈ (await first v rounds).steps) :
    ∃ v2,
      (await first v rounds).exit = AwaitExit.threw e v2
      ∧ ((∀ r ∈ rounds, r.othersOnlyNotify = true) → waitersOf v2 = waitersOf v)
      ∧ ((first = CondOutcome.raise e
            ∧ (await first v rounds).steps = [Step.condition (CondOutcome.raise e)]
            ∧ (await first v rounds).calls = []
            ∧ v2 = v)
          ∨ (first = CondOutcome.value false
            ∧ ∃ pre k, (await first v rounds).steps
                = pre ++ [Step.prepareWait k, Step.condition (CondOutcome.raise e),
                    Step.cancelWait]
              ∧ Step.cancelWait ∉ pre)) := by
  cases first with
  | value b =>
    cases b with
    | true => simp [await] at hraise
    | false =>
      simp only [await, AwaitRun.after, List.mem_append, List.mem_singleton,
        Step.condition.injEq, reduceCtorEq, false_or, List.singleton_append,
        List.mem_cons] at hraise ⊢
      obtain ⟨v2, pre, k, hexit, hsteps, hpre, hq⟩ := awaitLoop_throws e rounds v hraise
      refine ⟨v2, hexit, ?_, Or.inr ⟨trivial, Step.condition (CondOutcome.value false) :: pre, k, ?_, ?_⟩⟩
      · intro hall
        rw [waitersOf_eq_mod, waitersOf_eq_mod]
        exact hq hall
      · rw [hsteps]; rfl
      · simp [hpre]
  | raise err =>
    simp [await] at hraise
    subst hraise
    exact ⟨v, rfl, fun _ => rfl, Or.inl ⟨rfl, rfl, rfl, rfl⟩⟩

/-- C5 on a run from epoch 0 with 3 waiters: the first evaluation is false,
another thread notifies while the second is made, so `wait` returns at once,
and the evaluation of the next pass throws 42. -/
theorem await_rethrows_witness :
    (await (CondOutcome.value false) 3
        [⟨CondOutcome.value false, [Event.notify], []⟩, ⟨CondOutcome.raise 42, [], []⟩]).steps
      = [Step.condition (CondOutcome.value false),
         Step.prepareWait ⟨0⟩, Step.condition (CondOutcome.value false), Step.wait ⟨0⟩,
         Step.prepareWait ⟨1⟩, Step.condition (CondOutcome.raise 42), Step.cancelWait]
    ∧ ∃ v2,
      (await (CondOutcome.value false) 3
          [⟨CondOutcome.value false, [Event.notify], []⟩, ⟨CondOutcome.raise 42, [], []⟩]).exit
        = AwaitExit.threw 42 v2
      ∧ waitersOf v2 = waitersOf 3 :=
  ⟨by decide,
   (await_rethrows (CondOutcome.value false) 3
      [⟨CondOutcome.value false, [Event.notify], []⟩, ⟨CondOutcome.raise 42, [], []⟩] 42
      (by decide)).imp (fun _ h => ⟨h.1, h.2.1 (by decide)⟩)⟩

/-! ## The native backend -/

/-- C11: for every return value `rv` of the wake system call, `futexWake` and
`nativeFutexWake` return 0 when `rv` is negative and `rv` otherwise; the result
is never negative. -/
theorem futexWake_swallows_faults (rv : Int) :
    futexWake rv = (if rv < 0 then 0 else rv)
    ∧ nativeFutexWake rv = (if rv < 0 then 0 else rv)
    ∧ 0 ≤ futexWake rv ∧ 0 ≤ nativeFutexWake rv := by
  by_cases h : rv < 0
  · simp [futexWake, futexWakeImpl, nativeFutexWake, h]
  · have h0 : nativeFutexWake rv = rv := by simp only [nativeFutexWake, if_neg h]
    rw [futexWake, futexWakeImpl, h0, if_neg h]
    exact ⟨rfl, rfl, by omega, by omega⟩

/-- C18, as stated, fails: when the wake system call returns -1, `futexWake`
returns 0, not -1. -/
theorem futexWake_error_counterexample :
    futexWake (-1) = 0 ∧ futexWake (-1) ≠ -1 := by
  decide

/-- C18, amended: `futexWake` returns the number of awoken threads, or 0 if an
error occurred: whenever the wake system call returns a negative value,
`futexWake` returns 0, never -1. -/
theorem futexWake_error_is_zero (rv : Int) (h : rv < 0) :
    futexWake rv = 0 ∧ futexWake rv ≠ -1 := by
  have h0 : futexWake rv = 0 := by
    simp only [futexWake, futexWakeImpl, nativeFutexWake, if_pos h]
  rw [h0]
  exact ⟨rfl, by decide⟩

/-- C18 amended, when the wake system call returns -1. -/
theorem futexWake_error_is_zero_witness :
    (-1 : Int) < 0 ∧ futexWake (-1) = 0 ∧ futexWake (-1) ≠ -1 :=
  ⟨by decide, futexWake_error_is_zero (-1) (by decide)⟩

theorem deadline_at_most_one (d : Deadline) :
    d.absSystemTime = none ∨ d.absSteadyTime = none := by
  cases d <;> simp [Deadline.absSystemTime, Deadline.absSteadyTime]

/-- C13: for every call that `Futex.hpp` makes and every outcome `rv`, `errno`
that the futex system call can leave for it, `nativeFutexWaitImpl` maps the
outcome: `rv = 0` gives `AWOKEN`; otherwise `errno` `ETIMEDOUT` gives
`TIMEDOUT`, `EINTR` gives `INTERRUPTED` and `EWOULDBLOCK` gives
`VALUE_CHANGED`. -/
theorem nativeFutexWaitImpl_mapping (d : Deadline) (rv errno : Int)
    (hk : FutexWaitOutcome (nativeFutexWaitTimeout d.absSystemTime d.absSteadyTime) rv errno) :
    (rv = 0 →
      nativeFutexWaitImpl d.absSystemTime d.absSteadyTime rv errno
        = Checked.ok FutexResult.AWOKEN)
    ∧ (rv ≠ 0 → errno = ETIMEDOUT →
      nativeFutexWaitImpl d.absSystemTime d.absSteadyTime rv errno
        = Checked.ok FutexResult.TIMEDOUT)
    ∧ (rv ≠ 0 → errno = EINTR →
      nativeFutexWaitImpl d.absSystemTime d.absSteadyTime rv errno
        = Checked.ok FutexResult.INTERRUPTED)
    ∧ (rv ≠ 0 → errno = EWOULDBLOCK →
      nativeFutexWaitImpl d.absSystemTime d.absSteadyTime rv errno
        = Checked.ok FutexResult.VALUE_CHANGED) := by
  have hone := deadline_at_most_one d
  have h1 : EINTR ≠ ETIMEDOUT := by decide
  have h2 : EWOULDBLOCK ≠ ETIMEDOUT := by decide
  have h3 : EWOULDBLOCK ≠ EINTR := by decide
  refine ⟨?_, ?_, ?_, ?_⟩
  · intro h; simp [nativeFutexWaitImpl, hone, h]
  · intro h he; simp [nativeFutexWaitImpl, hone, h, he, hk h he]
  · intro h he; simp [nativeFutexWaitImpl, hone, h, he, h1]
  · intro h he; simp [nativeFutexWaitImpl, hone, h, he, h2, h3]

/-- C13 on a wait with a steady deadline of 5 s: the outcomes of the system
call in turn. -/
theorem nativeFutexWaitImpl_mapping_witness :
    FutexWaitOutcome (nativeFutexWaitTimeout none (some 5000000000)) (-1) ETIMEDOUT
    ∧ nativeFutexWaitImpl none (some 5000000000) 0 0 = Checked.ok FutexResult.AWOKEN
    ∧ nativeFutexWaitImpl none (some 5000000000) (-1) ETIMEDOUT
        = Checked.ok FutexResult.TIMEDOUT
    ∧ nativeFutexWaitImpl none (some 5000000000) (-1) EINTR
        = Checked.ok FutexResult.INTERRUPTED
    ∧ nativeFutexWaitImpl none (some 5000000000) (-1) EWOULDBLOCK
        = Checked.ok FutexResult.VALUE_CHANGED :=
  ⟨fun _ _ => by decide,
   (nativeFutexWaitImpl_mapping (Deadline.steady 5000000000) 0 0
      (fun h => absurd rfl h)).1 rfl,
   (nativeFutexWaitImpl_mapping (Deadline.steady 5000000000) (-1) ETIMEDOUT
      (fun _ _ => by decide)).2.1 (by decide) rfl,
   (nativeFutexWaitImpl_mapping (Deadline.steady 5000000000) (-1) EINTR
      (fun _ h => absurd h (by decide))).2.2.1 (by decide) rfl,
   (nativeFutexWaitImpl_mapping (Deadline.steady 5000000000) (-1) EWOULDBLOCK
      (fun _ h => absurd h (by decide))).2.2.2 (by decide) rfl⟩

/-- C14: for every outcome `rv`, `errno` that the futex system call can leave
for a wait without timeout, a backend wait made with no deadline never returns
`TIMEDOUT`: it returns `AWOKEN`, `INTERRUPTED` or `VALUE_CHANGED`, or stops at
the `assert(false)` of the `default` branch.  So neither the assertion
`rv != TIMEDOUT` of `futexWait` nor the assertion `timeout != nullptr` of the
`ETIMEDOUT` branch fails. -/
theorem no_deadline_never_timedout (futex expected waitMask : Nat) (rv errno : Int)
    (hk : FutexWaitOutcome (nativeFutexWaitTimeout none none) rv errno) :
    nativeFutexWaitTimeout none none = none
    ∧ nativeFutexWaitImpl none none rv errno ≠ Checked.ok FutexResult.TIMEDOUT
    ∧ nativeFutexWaitImpl none none rv errno ≠ Checked.failed Assertion.timeoutGiven
    ∧ nativeFutexWaitImpl none none rv errno ≠ Checked.failed Assertion.oneDeadline
    ∧ futexWaitNative futex expected waitMask rv errno ≠ Checked.ok FutexResult.TIMEDOUT
    ∧ futexWaitNative futex expected waitMask rv errno ≠ Checked.failed Assertion.notTimedOut
    ∧ futexWaitNative futex expected waitMask rv errno ≠ Checked.failed Assertion.timeoutGiven
    ∧ futexWaitNative futex expected waitMask rv errno
        = nativeFutexWaitImpl none none rv errno
    ∧ (nativeFutexWaitImpl none none rv errno = Checked.ok FutexResult.AWOKEN
        ∨ nativeFutexWaitImpl none none rv errno = Checked.ok FutexResult.INTERRUPTED
        ∨ nativeFutexWaitImpl none none rv errno = Checked.ok FutexResult.VALUE_CHANGED
        ∨ nativeFutexWaitImpl none none rv errno = Checked.failed Assertion.knownErrno) := by
  have d1 : EINTR ≠ ETIMEDOUT := by decide
  have d2 : EWOULDBLOCK ≠ ETIMEDOUT := by decide
  have d3 : EWOULDBLOCK ≠ EINTR := by decide
  have hnot : ¬ (rv ≠ 0 ∧ errno = ETIMEDOUT) := fun h => hk h.1 h.2 rfl
  simp only [futexWaitNative, futexWaitImpl, futexWaitCall, nativeFutexWaitImpl,
    nativeFutexWaitTimeout]
  by_cases h0 : rv = 0
  · simp [h0, futexWait]
  · have h1 : errno ≠ ETIMEDOUT := fun h => hnot ⟨h0, h⟩
    by_cases h2 : errno = EINTR
    · subst h2; simp [h0, d1, futexWait]
    · by_cases h3 : errno = EWOULDBLOCK
      · subst h3; simp [h0, d2, d3, futexWait]
      · simp [h0, h1, h2, h3]

/-- C14 on the outcomes `rv = 0` and `rv = -1` with `errno = EWOULDBLOCK`. -/
theorem no_deadline_never_timedout_witness :
    FutexWaitOutcome (nativeFutexWaitTimeout none none) (-1) EWOULDBLOCK
    ∧ futexWaitNative 1 7 kAllBits (-1) EWOULDBLOCK = Checked.ok FutexResult.VALUE_CHANGED
    ∧ futexWaitNative 1 7 kAllBits (-1) EWOULDBLOCK ≠ Checked.failed Assertion.notTimedOut
    ∧ futexWaitNative 1 7 kAllBits 0 0 ≠ Checked.ok FutexResult.TIMEDOUT :=
  ⟨fun _ h => absurd h (by decide),
   by decide,
   (no_deadline_never_timedout 1 7 kAllBits (-1) EWOULDBLOCK
      (fun _ h => absurd h (by decide))).2.2.2.2.2.1,
   (no_deadline_never_timedout 1 7 kAllBits 0 0 (fun h => absurd rfl h)).2.2.2.2.1⟩

/-- C19 fails on the code: for an outcome with non-zero return value and an
`errno` other than `ETIMEDOUT`, `EINTR` and `EWOULDBLOCK`, a backend wait
called with at most one absolute time reaches `assert(false)` and does not
return `VALUE_CHANGED`. -/
theorem unknown_errno_asserts (absSystemTime absSteadyTime : Option Int) (rv errno : Int)
    (hone : absSystemTime = none ∨ absSteadyTime = none) (hrv : rv ≠ 0)
    (h1 : errno ≠ ETIMEDOUT) (h2 : errno ≠ EINTR) (h3 : errno ≠ EWOULDBLOCK) :
    nativeFutexWaitImpl absSystemTime absSteadyTime rv errno
        = Checked.failed Assertion.knownErrno
    ∧ nativeFutexWaitImpl absSystemTime absSteadyTime rv errno
        ≠ Checked.ok FutexResult.VALUE_CHANGED := by
  simp [nativeFutexWaitImpl, hone, hrv, h1, h2, h3]

/-- C19 at `rv = -1`, `errno = EINVAL`, no deadline. -/
theorem unknown_errno_asserts_witness :
    nativeFutexWaitImpl none none (-1) EINVAL = Checked.failed Assertion.knownErrno
    ∧ nativeFutexWaitImpl none none (-1) EINVAL ≠ Checked.ok FutexResult.VALUE_CHANGED :=
  unknown_errno_asserts none none (-1) EINVAL (Or.inl rfl) (by decide) (by decide)
    (by decide) (by decide)

/-- C15: for every count `c` of nanoseconds since the epoch,
`timeSpecFromTimePoint` gives `tv_sec ≥ 0` and `0 ≤ tv_nsec < 10^9`: `{0, 0}`
when `c < 0`, and `tv_sec = c div 10^9`, `tv_nsec = c mod 10^9` with
`tv_sec * 10^9 + tv_nsec = c` when `c ≥ 0`. -/
theorem timeSpecFromTimePoint_range (c : Int) :
    0 ≤ (timeSpecFromTimePoint c).tv_sec
    ∧ 0 ≤ (timeSpecFromTimePoint c).tv_nsec
    ∧ (timeSpecFromTimePoint c).tv_nsec < 10 ^ 9
    ∧ (c < 0 → timeSpecFromTimePoint c = ⟨0, 0⟩)
    ∧ (0 ≤ c →
        (timeSpecFromTimePoint c).tv_sec = c / 10 ^ 9
        ∧ (timeSpecFromTimePoint c).tv_nsec = c % 10 ^ 9
        ∧ (timeSpecFromTimePoint c).tv_sec * 10 ^ 9 + (timeSpecFromTimePoint c).tv_nsec = c) := by
  by_cases hc : c < 0
  · have h : timeSpecFromTimePoint c = ⟨0, 0⟩ := by
      simp [timeSpecFromTimePoint, hc]
    rw [h]
    refine ⟨le_refl _, le_refl _, by norm_num, fun _ => rfl, fun h0 => absurd hc (by omega)⟩
  · have h0 : 0 ≤ c := by omega
    have hd : Int.tdiv c (10 ^ 9) = c / 10 ^ 9 := Int.tdiv_eq_ediv h0 (by norm_num)
    have h : timeSpecFromTimePoint c = ⟨c / 10 ^ 9, c - c / 10 ^ 9 * 10 ^ 9⟩ := by
      simp only [timeSpecFromTimePoint, if_neg hc, hd]
    rw [h]
    refine ⟨?_, ?_, ?_, fun h1 => absurd h1 hc, fun _ => ⟨rfl, ?_, ?_⟩⟩ <;>
      simp only <;> omega

/-- C15 at 2.5 s after the epoch and at 1 ns before it. -/
theorem timeSpecFromTimePoint_range_witness :
    timeSpecFromTimePoint (-1) = ⟨0, 0⟩
    ∧ (timeSpecFromTimePoint 2500000000).tv_sec = 2500000000 / 10 ^ 9
    ∧ (timeSpecFromTimePoint 2500000000).tv_nsec = 2500000000 % 10 ^ 9 :=
  ⟨(timeSpecFromTimePoint_range (-1)).2.2.2.1 (by decide),
   ((timeSpecFromTimePoint_range 2500000000).2.2.2.2 (by decide)).1,
   ((timeSpecFromTimePoint_range 2500000000).2.2.2.2 (by decide)).2.1⟩

/-- C16: for every clock type, futex, expected value and wait mask,
`futexWaitUntil` called with the clock's `time_point::max()` converts it to the
target clock's `time_point::max()` without a call of `now()`, and makes the
backend call that `futexWait` makes: both absolute times null, so that no
timeout reaches the system call. -/
theorem futexWaitUntil_no_deadline (clock : ClockType) (futex expected waitMask : Nat)
    (clockNow targetNow : Int) :
    time_point_conv (if clock.is_steady then steady_clock else system_clock) clock clock.max
        clockNow targetNow
      = ((if clock.is_steady then steady_clock else system_clock).max, [])
    ∧ futexWaitUntil clock futex expected clock.max waitMask clockNow targetNow
      = (futexWaitCall futex expected waitMask, [])
    ∧ (futexWaitCall futex expected waitMask).absSystemTime = none
    ∧ (futexWaitCall futex expected waitMask).absSteadyTime = none
    ∧ nativeFutexWaitTimeout (futexWaitCall futex expected waitMask).absSystemTime
        (futexWaitCall futex expected waitMask).absSteadyTime = none := by
  refine ⟨?_, ?_, rfl, rfl, rfl⟩
  · simp [time_point_conv]
  · simp [futexWaitUntil, time_point_conv, futexWaitCall]


/-! ## Epoch wraparound -/

theorem runEvents_notifies (es : List Event)
    (hn : ∀ e ∈ es, e = Event.notify ∨ e = Event.notifyAll) :
    ∀ v : Nat, v < 2 ^ 64 → runEvents es v = (v + es.length * 2 ^ 32) % 2 ^ 64 := by
  induction es with
  | nil => intro v hv; simp only [runEvents, List.length_nil]; omega
  | cons e es ih =>
    intro v hv
    have he := hn e (List.mem_cons_self _ _)
    have hrest := ih (fun u hu => hn u (List.mem_cons_of_mem _ hu))
    have hstep : e.apply v = (v + 2 ^ 32) % 2 ^ 64 := by
      rcases he with he | he <;> subst he
      · exact apply_notify v
      · exact apply_notifyAll v
    rw [runEvents_cons, hstep, hrest _ (Nat.mod_lt _ (by norm_num)), List.length_cons]
    omega

/-- C20, as stated, fails on the word whose waiter count is `2^32 - 1`:
`prepareWait()` returns the key of epoch 0 and carries into the epoch, which
is 1 right after it and 1 again after `2^32` notifies, so it differs from the
key's epoch at multiples of `2^32`. -/
theorem epoch_wraparound_counterexample :
    (prepareWait (2 ^ 32 - 1)).1.epoch_ = 0
    ∧ epochOf (runEvents [] (prepareWait (2 ^ 32 - 1)).2) = 1
    ∧ epochOf (runEvents (List.replicate (2 ^ 32) Event.notify) (prepareWait (2 ^ 32 - 1)).2)
        = 1 := by
  refine ⟨by decide, by decide, ?_⟩
  have hp : (prepareWait (2 ^ 32 - 1)).2 = 2 ^ 32 := by decide
  rw [hp, runEvents_notifies _ (fun e he => Or.inl (List.eq_of_mem_replicate he)) _
    (by norm_num), List.length_replicate, epochOf_eq_div]
  norm_num

/-- C20, amended: for every state word `w` whose waiter count is below
`2^32 - 1` and the Key `k` that `prepareWait()` takes from it, after `n`
further `notify()` / `notifyAll()` calls the epoch differs from the epoch of
`k` exactly when `n` is not a multiple of `2^32`; so for `1 ≤ n < 2^32`
`wait(k)` returns without a backend call, and when `n` is a multiple of
`2^32` `wait(k)` calls the backend wait. -/
theorem epoch_wraparound (w : Nat) (es : List Event) (hw : w < 2 ^ 64)
    (hfree : waitersOf w < 2 ^ 32 - 1)
    (hn : ∀ e ∈ es, e = Event.notify ∨ e = Event.notifyAll) :
    (epochOf (runEvents es (prepareWait w).2) ≠ (prepareWait w).1.epoch_
        ↔ ¬ 2 ^ 32 ∣ es.length)
    ∧ (1 ≤ es.length → es.length < 2 ^ 32 → ∀ ws : List Wakeup,
        wait (prepareWait w).1 (runEvents es (prepareWait w).2) ws
          = WaitOutcome.returned ((runEvents es (prepareWait w).2 + kSubWaiter) % 2 ^ 64) [])
    ∧ (2 ^ 32 ∣ es.length →
        wait (prepareWait w).1 (runEvents es (prepareWait w).2) []
          = WaitOutcome.asleep
              [Call.futexWait kEpochOffset (prepareWait w).1.epoch_ kAllBits]) := by
  rw [waitersOf_eq_mod] at hfree
  have hp : (prepareWait w).2 = w + 1 := by rw [prepareWait_val]; omega
  have hk : (prepareWait w).1.epoch_ = w / 2 ^ 32 := by rw [prepareWait_key]; omega
  have hrun := runEvents_notifies es hn (w + 1) (by omega)
  have hiff : epochOf (runEvents es (w + 1)) ≠ w / 2 ^ 32 ↔ ¬ 2 ^ 32 ∣ es.length := by
    rw [hrun, epochOf_eq_div]; omega
  rw [hp, hk]
  refine ⟨hiff, ?_, ?_⟩
  · intro h1 h2 ws
    have hne : epochOf (runEvents es (w + 1)) ≠ (prepareWait w).1.epoch_ := by
      rw [hk]; exact hiff.mpr (by omega)
    exact wait_of_epoch_ne _ _ ws hne
  · intro hdvd
    have heq : epochOf (runEvents es (w + 1)) = (prepareWait w).1.epoch_ := by
      rw [hk]; exact not_not.mp (fun h => (hiff.mp h) hdvd)
    have := wait_asleep (prepareWait w).1 [] (runEvents es (w + 1)) heq
      (fun u hu => absurd hu (List.not_mem_nil u))
    rw [hk] at this
    exact this

/-- C20 amended, at epoch 6 with 2 waiters and three notifies. -/
theorem epoch_wraparound_witness :
    6 * 2 ^ 32 + 2 < 2 ^ 64 ∧ waitersOf (6 * 2 ^ 32 + 2) < 2 ^ 32 - 1
    ∧ epochOf (runEvents [Event.notify, Event.notifyAll, Event.notify]
        (prepareWait (6 * 2 ^ 32 + 2)).2) ≠ (prepareWait (6 * 2 ^ 32 + 2)).1.epoch_
    ∧ wait (prepareWait (6 * 2 ^ 32 + 2)).1
        (runEvents [Event.notify, Event.notifyAll, Event.notify]
          (prepareWait (6 * 2 ^ 32 + 2)).2) []
      = WaitOutcome.returned
          ((runEvents [Event.notify, Event.notifyAll, Event.notify]
            (prepareWait (6 * 2 ^ 32 + 2)).2 + kSubWaiter) % 2 ^ 64) [] :=
  ⟨by decide, by decide,
   (epoch_wraparound (6 * 2 ^ 32 + 2) [Event.notify, Event.notifyAll, Event.notify]
      (by decide) (by decide) (by decide)).1.mpr (by decide),
   (epoch_wraparound (6 * 2 ^ 32 + 2) [Event.notify, Event.notifyAll, Event.notify]
      (by decide) (by decide) (by decide)).2.1 (by decide) (by decide) []⟩


/-! ## The sequence of calls of `await` -/

theorem passes_counts {ε : Type} (ks : List Key) :
    (passes ks : List (Step ε)).countP Step.isPrepareWait = ks.length
    ∧ (passes ks : List (Step ε)).countP Step.isWaitOrCancel = ks.length := by
  induction ks with
  | nil => exact ⟨rfl, rfl⟩
  | cons k ks ih =>
    simp only [passes, List.countP_cons, Step.isPrepareWait, Step.isWaitOrCancel, ih.1, ih.2,
      List.length_cons]
    simp

theorem awaitLoop_sequence {ε : Type} (rounds : List (Round ε))
    (hno : ∀ r ∈ rounds, ∀ e : ε, r.cond ≠ CondOutcome.raise e) :
    ∀ v : Nat, ∃ ks : List Key,
      (∃ v2 k,
        (awaitLoop v rounds).exit = AwaitExit.returned v2
        ∧ (awaitLoop v rounds).steps
            = passes ks ++ [Step.prepareWait k, Step.condition (CondOutcome.value true),
                Step.cancelWait]
        ∧ ((∀ r ∈ rounds, r.othersOnlyNotify = true) → v2 % 2 ^ 32 = v % 2 ^ 32))
      ∨ ((∀ v2, (awaitLoop v rounds).exit ≠ AwaitExit.returned v2)
        ∧ (∀ e v2, (awaitLoop v rounds).exit ≠ AwaitExit.threw e v2)
        ∧ (awaitLoop v rounds).steps = passes ks) := by
  induction rounds with
  | nil =>
    intro v
    exact ⟨[], Or.inr ⟨by simp [awaitLoop], by simp [awaitLoop], rfl⟩⟩
  | cons r rest ih =>
    intro v
    have hrest := ih (fun u hu => hno u (List.mem_cons_of_mem _ hu))
    cases hc : r.cond with
    | value b =>
      cases b with
      | true =>
        rw [awaitLoop_true v r rest hc]
        refine ⟨[], Or.inl ⟨_, _, rfl, rfl, ?_⟩⟩
        intro hall
        have hr := hall r (List.mem_cons_self _ _)
        simp only [Round.othersOnlyNotify, Bool.and_eq_true] at hr
        have h3 := runEvents_notify_only r.during (prepareWait v).2 hr.1
        rw [prepareWait_val] at h3
        rw [cancelWait_val, prepareWait_val]
        omega
      | false =>
        cases hw : wait (prepareWait v).1 (runEvents r.during (prepareWait v).2)
            (seen (runEvents r.during (prepareWait v).2) r.wakeups) with
        | returned v1 cs =>
          rw [awaitLoop_false_returned v r rest v1 cs hc hw]
          obtain ⟨ks, hks⟩ := hrest v1
          refine ⟨(prepareWait v).1 :: ks, ?_⟩
          rcases hks with ⟨v2, k, hexit, hsteps, hq⟩ | ⟨h1, h2, hsteps⟩
          · refine Or.inl ⟨v2, k, hexit, ?_, ?_⟩
            · simp only [AwaitRun.after, hsteps, passes, List.cons_append, List.nil_append]
            · intro hall
              have hr := hall r (List.mem_cons_self _ _)
              simp only [Round.othersOnlyNotify, Bool.and_eq_true] at hr
              have e1 := hq (fun u hu => hall u (List.mem_cons_of_mem _ hu))
              have e2 := wait_seen_notify_only _ _ _ _ _ hr.2 hw
              have e3 := runEvents_notify_only r.during (prepareWait v).2 hr.1
              rw [prepareWait_val] at e2 e3
              omega
          · refine Or.inr ⟨h1, h2, ?_⟩
            simp only [AwaitRun.after, hsteps, passes, List.cons_append, List.nil_append]
        | asleep cs =>
          rw [awaitLoop_false_asleep v r rest cs hc hw]
          exact ⟨[(prepareWait v).1], Or.inr ⟨by simp, by simp, rfl⟩⟩
        | aborted cs =>
          rw [awaitLoop_false_aborted v r rest cs hc hw]
          exact ⟨[(prepareWait v).1], Or.inr ⟨by simp, by simp, rfl⟩⟩
    | raise err => exact absurd hc (hno r (List.mem_cons_self _ _) err)

/-- C12: when the first evaluation of the condition is false and no
evaluation throws, the calls of `await(condition)` are that evaluation
followed by passes of `prepareWait()`, `condition()` (false), `wait(key)` with
the key of that pass.  When `await` returns, the run ends with one more
`prepareWait()`, an evaluation that yields true and `cancelWait()`; it made as
many `prepareWait()` calls as `wait` and `cancelWait` calls together, and when
the other threads only notify meanwhile the waiter count at return is the
waiter count at entry.  A run that has not returned consists of such passes
only. -/
theorem await_sequence {ε : Type} (v : Nat) (rounds : List (Round ε))
    (hno : ∀ r ∈ rounds, ∀ e : ε, r.cond ≠ CondOutcome.raise e) :
    ∃ ks : List Key,
      (∃ v2 k,
        (await (CondOutcome.value false) v rounds).exit = AwaitExit.returned v2
        ∧ (await (CondOutcome.value false) v rounds).steps
            = Step.condition (CondOutcome.value false)
                :: (passes ks ++ [Step.prepareWait k, Step.condition (CondOutcome.value true),
                      Step.cancelWait])
        ∧ (await (CondOutcome.value false) v rounds).steps.countP Step.isPrepareWait
            = (await (CondOutcome.value false) v rounds).steps.countP Step.isWaitOrCancel
        ∧ ((∀ r ∈ rounds, r.othersOnlyNotify = true) → waitersOf v2 = waitersOf v))
      ∨ ((∀ v2, (await (CondOutcome.value false) v rounds).exit ≠ AwaitExit.returned v2)
        ∧ (∀ e v2, (await (CondOutcome.value false) v rounds).exit ≠ AwaitExit.threw e v2)
        ∧ (await (CondOutcome.value false) v rounds).steps
            = Step.condition (CondOutcome.value false) :: passes ks) := by
  obtain ⟨ks, hks⟩ := awaitLoop_sequence rounds hno v
  refine ⟨ks, ?_⟩
  have hexit : (await (CondOutcome.value false) v rounds).exit = (awaitLoop v rounds).exit := rfl
  have hsteps : (await (CondOutcome.value false) v rounds).steps
      = Step.condition (CondOutcome.value false) :: (awaitLoop v rounds).steps := rfl
  rw [hexit, hsteps]
  rcases hks with ⟨v2, k, he, hs, hq⟩ | ⟨h1, h2, hs⟩
  · refine Or.inl ⟨v2, k, he, by rw [hs], ?_, ?_⟩
    · rw [hs]
      simp only [List.countP_cons, List.countP_append, (passes_counts ks).1,
        (passes_counts ks).2, Step.isPrepareWait, Step.isWaitOrCancel, List.countP_nil]
      simp
    · intro hall
      rw [waitersOf_eq_mod, waitersOf_eq_mod]
      exact hq hall
  · exact Or.inr ⟨h1, h2, by rw [hs]⟩

/-- C12 on a run from epoch 0 with 3 waiters: the first two evaluations are
false, another thread notifies during the second, so `wait` returns at once,
and the third evaluation is true. -/
theorem await_sequence_witness :
    (∀ r ∈ [⟨CondOutcome.value false, [Event.notify], []⟩,
            (⟨CondOutcome.value true, [], []⟩ : Round Nat)],
        ∀ e : Nat, r.cond ≠ CondOutcome.raise e)
    ∧ (await (CondOutcome.value false) 3
        [⟨CondOutcome.value false, [Event.notify], []⟩,
         (⟨CondOutcome.value true, [], []⟩ : Round Nat)]).steps
      = [Step.condition (CondOutcome.value false),
         Step.prepareWait ⟨0⟩, Step.condition (CondOutcome.value false), Step.wait ⟨0⟩,
         Step.prepareWait ⟨1⟩, Step.condition (CondOutcome.value true), Step.cancelWait]
    ∧ ∃ (ks : List Key) (v2 : Nat) (k : Key),
        (await (CondOutcome.value false) 3
            [⟨CondOutcome.value false, [Event.notify], []⟩,
             (⟨CondOutcome.value true, [], []⟩ : Round Nat)]).exit = AwaitExit.returned v2
        ∧ (await (CondOutcome.value false) 3
            [⟨CondOutcome.value false, [Event.notify], []⟩,
             (⟨CondOutcome.value true, [], []⟩ : Round Nat)]).steps
            = Step.condition (CondOutcome.value false)
                :: (passes ks ++ [Step.prepareWait k, Step.condition (CondOutcome.value true),
                      Step.cancelWait])
        ∧ waitersOf v2 = waitersOf 3 := by
  have hno : ∀ r ∈ [⟨CondOutcome.value false, [Event.notify], []⟩,
      (⟨CondOutcome.value true, [], []⟩ : Round Nat)],
      ∀ e : Nat, r.cond ≠ CondOutcome.raise e := by
    intro r hr e
    simp only [List.mem_cons, List.mem_singleton, List.not_mem_nil, or_false] at hr
    rcases hr with rfl | rfl <;> simp
  refine ⟨hno, by decide, ?_⟩
  obtain ⟨ks, h⟩ := await_sequence 3 _ hno
  rcases h with ⟨v2, k, he, hs, -, hq⟩ | ⟨h1, -, -⟩
  · exact ⟨ks, v2, k, he, hs, hq (by decide)⟩
  · exact absurd (by decide) (h1 (2 ^ 32 + 3))


/-! ## Liveness after a notify -/

theorem doNotify_calls (n : Int) (v : Nat) (h : 1 ≤ waitersOf v) :
    (doNotify n v).2 = [Call.futexWake kEpochOffset n kAllBits] := by
  have h0 : v &&& kWaiterMask ≠ 0 := by
    have : waitersOf v ≠ 0 := by omega
    exact this
  simp [doNotify, fetch_add, UNLIKELY, h0]

theorem wokenBy_doNotify (n : Int) (v q : Nat) (h : 1 ≤ waitersOf v) :
    wokenBy (doNotify n v).2 q = decide ((q : Int) < n) := by
  have hm : kAllBits ≠ 0 := by decide
  rw [doNotify_calls n v h]
  simp [wokenBy, wakeReaches, hm]

/-- The words a registered thread can read after a notify on `v`, whatever
registrations the other threads make or give up meanwhile, have another epoch
than `v`. -/
theorem epoch_after_notify (n : Int) (v : Nat) (os : List Event) (hv : v < 2 ^ 64)
    (hreg : 1 ≤ waitersOf v) (hothers : ∀ e ∈ os, e.isRegistration = true)
    (hwf : wellFormed (2 ^ 32 - 1) (waitersOf v - 1) os = true) :
    epochOf (runEvents os (doNotify n v).1) ≠ epochOf v
      ∧ runEvents os (doNotify n v).1 < 2 ^ 64 := by
  rw [waitersOf_eq_mod] at hreg hwf
  have hm : ((v - 1 + 2 ^ 32) % 2 ^ 64) % 2 ^ 32 = v % 2 ^ 32 - 1 := by omega
  have hd : ((v - 1 + 2 ^ 32) % 2 ^ 64) / 2 ^ 32 = (v / 2 ^ 32 + 1) % 2 ^ 32 := by omega
  have hplus : (v + 2 ^ 32) % 2 ^ 64 = (v - 1 + 2 ^ 32) % 2 ^ 64 + 1 := by omega
  have hlt : (v - 1 + 2 ^ 32) % 2 ^ 64 < 2 ^ 64 := Nat.mod_lt _ (by norm_num)
  rw [doNotify_val, hplus]
  generalize (v - 1 + 2 ^ 32) % 2 ^ 64 = w2 at *
  rw [← hm] at hwf
  obtain ⟨hrun, hr⟩ := runEvents_registrations 1 (le_refl 1) w2 os hlt (by omega) hothers hwf
  rw [hrun, epochOf_eq_div, epochOf_eq_div]
  constructor <;> omega

theorem waitAfterNotify_beforeLoad (n : Int) (v : Nat) (k : Key) (os1 os2 : List Event) :
    waitAfterNotify n v k Position.beforeLoad os1 os2
      = wait k (runEvents os2 (runEvents os1 (doNotify n v).1)) [] := rfl

theorem waitAfterNotify_entering (n : Int) (v : Nat) (k : Key) (loaded : Nat)
    (os1 os2 : List Event) (rv : FutexResult)
    (h : backendWaitEntry (runEvents os1 (doNotify n v).1) kEpochOffset k.epoch_ = some rv) :
    waitAfterNotify n v k (Position.entering loaded) os1 os2
      = wait k loaded [⟨rv, runEvents os2 (runEvents os1 (doNotify n v).1)⟩] := by
  unfold waitAfterNotify
  dsimp only
  rw [h]

theorem waitAfterNotify_woken (n : Int) (v : Nat) (k : Key) (loaded q : Nat)
    (os1 os2 : List Event) (h : wokenBy (doNotify n v).2 q = true) :
    waitAfterNotify n v k (Position.asleep loaded q) os1 os2
      = wait k loaded [⟨FutexResult.AWOKEN, runEvents os2 (runEvents os1 (doNotify n v).1)⟩] := by
  unfold waitAfterNotify
  dsimp only
  rw [h]
  rfl

theorem waitAfterNotify_unwoken (n : Int) (v : Nat) (k : Key) (loaded q : Nat)
    (os1 os2 : List Event) (h : wokenBy (doNotify n v).2 q = false) :
    waitAfterNotify n v k (Position.asleep loaded q) os1 os2 = wait k loaded [] := by
  unfold waitAfterNotify
  dsimp only
  rw [h]
  rfl

/-- C17, as stated, fails for `notify()` when the threads are asleep: on the
word with two waiters at epoch 0, both blocked in the backend wait, `notify()`
issues one wake with count 1; the first thread comes back and returns, the
second stays blocked, also after the first has returned.  `notifyAll()` wakes
with count `2^31 - 1`, so a thread with that many blocked threads before it
stays blocked as well. -/
theorem notify_liveness_counterexample :
    (notify 2).2 = [Call.futexWake kEpochOffset 1 kAllBits]
    ∧ waitAfterNotify 1 2 ⟨0⟩ (Position.asleep 2 0) [] []
        = WaitOutcome.returned (2 ^ 32 + 1) [Call.futexWait kEpochOffset 0 kAllBits]
    ∧ waitAfterNotify 1 2 ⟨0⟩ (Position.asleep 2 1) [] []
        = WaitOutcome.asleep [Call.futexWait kEpochOffset 0 kAllBits]
    ∧ waitAfterNotify 1 2 ⟨0⟩ (Position.asleep 2 1) [Event.waitReturn] []
        = WaitOutcome.asleep [Call.futexWait kEpochOffset 0 kAllBits]
    ∧ waitAfterNotify INT_MAX (2 ^ 31) ⟨0⟩ (Position.asleep (2 ^ 31) (2 ^ 31 - 1)) [] []
        = WaitOutcome.asleep [Call.futexWait kEpochOffset 0 kAllBits] := by
  decide

/-- C17, amended: a thread has completed `prepareWait()` with key `k` in the
epoch of the word `v` and found its condition false; then `doNotify(n)` runs on
`v` (`notify()` is `n = 1`, `notifyAll()` is `n = 2^31 - 1`), and the other
threads complete any paired registrations and returns `os1`, `os2` meanwhile.
Wherever the thread stands, its `wait(k)` returns when it is not blocked in
the backend: with no backend call when it had not yet loaded, after one
backend wait that comes back at once when it was entering.  A thread blocked
in the backend with `q` blocked threads before it returns exactly when
`q < n`, and stays blocked otherwise.  Hence after `notifyAll()` each of up to
`2^31 - 1` blocked threads returns, after `notify()` the first one only. -/
theorem notify_liveness (n : Int) (v : Nat) (k : Key) (os1 os2 : List Event)
    (hv : v < 2 ^ 64) (hreg : 1 ≤ waitersOf v) (hkey : k.epoch_ = epochOf v)
    (hothers : ∀ e ∈ os1 ++ os2, e.isRegistration = true)
    (hwf : wellFormed (2 ^ 32 - 1) (waitersOf v - 1) (os1 ++ os2) = true) :
    waitAfterNotify n v k Position.beforeLoad os1 os2
        = WaitOutcome.returned
            ((runEvents os2 (runEvents os1 (doNotify n v).1) + kSubWaiter) % 2 ^ 64) []
    ∧ (∀ loaded : Nat, epochOf loaded = k.epoch_ →
        waitAfterNotify n v k (Position.entering loaded) os1 os2
          = WaitOutcome.returned
              ((runEvents os2 (runEvents os1 (doNotify n v).1) + kSubWaiter) % 2 ^ 64)
              [Call.futexWait kEpochOffset k.epoch_ kAllBits])
    ∧ (∀ loaded q : Nat, epochOf loaded = k.epoch_ →
        ((q : Int) < n →
          waitAfterNotify n v k (Position.asleep loaded q) os1 os2
            = WaitOutcome.returned
                ((runEvents os2 (runEvents os1 (doNotify n v).1) + kSubWaiter) % 2 ^ 64)
                [Call.futexWait kEpochOffset k.epoch_ kAllBits])
        ∧ (n ≤ (q : Int) →
          waitAfterNotify n v k (Position.asleep loaded q) os1 os2
            = WaitOutcome.asleep [Call.futexWait kEpochOffset k.epoch_ kAllBits]))
    ∧ (n = INT_MAX → ∀ M loaded q : Nat, M ≤ 2 ^ 31 - 1 → q < M →
        epochOf loaded = k.epoch_ →
        waitAfterNotify n v k (Position.asleep loaded q) os1 os2
          = WaitOutcome.returned
              ((runEvents os2 (runEvents os1 (doNotify n v).1) + kSubWaiter) % 2 ^ 64)
              [Call.futexWait kEpochOffset k.epoch_ kAllBits]) := by
  obtain ⟨hwf1, -⟩ := wellFormed_append _ os1 os2 _ hwf
  have hreg1 : ∀ e ∈ os1, e.isRegistration = true :=
    fun e he => hothers e (List.mem_append_left _ he)
  obtain ⟨hne1, hlt1⟩ := epoch_after_notify n v os1 hv hreg hreg1 hwf1
  obtain ⟨hne2, -⟩ := epoch_after_notify n v (os1 ++ os2) hv hreg hothers hwf
  rw [runEvents_append] at hne2
  rw [← hkey] at hne1 hne2
  have hentry : backendWaitEntry (runEvents os1 (doNotify n v).1) kEpochOffset k.epoch_
      = some FutexResult.VALUE_CHANGED := by
    simp only [backendWaitEntry, futexAt_epochOffset _ hlt1, if_neg hne1]
  have hback : ∀ (loaded : Nat) (rv : FutexResult), rv ≠ FutexResult.TIMEDOUT →
      epochOf loaded = k.epoch_ →
      wait k loaded [⟨rv, runEvents os2 (runEvents os1 (doNotify n v).1)⟩]
        = WaitOutcome.returned
            ((runEvents os2 (runEvents os1 (doNotify n v).1) + kSubWaiter) % 2 ^ 64)
            [Call.futexWait kEpochOffset k.epoch_ kAllBits] := by
    intro loaded rv hrv hl
    exact wait_returns k [] ⟨rv, _⟩ [] hrv hne2 loaded hl
      (fun u hu => absurd hu (List.not_mem_nil u))
  have hsleep : ∀ loaded : Nat, epochOf loaded = k.epoch_ →
      wait k loaded [] = WaitOutcome.asleep [Call.futexWait kEpochOffset k.epoch_ kAllBits] :=
    fun loaded hl => wait_asleep k [] loaded hl (fun u hu => absurd hu (List.not_mem_nil u))
  have hwoken : ∀ (loaded q : Nat), epochOf loaded = k.epoch_ → (q : Int) < n →
      waitAfterNotify n v k (Position.asleep loaded q) os1 os2
        = WaitOutcome.returned
            ((runEvents os2 (runEvents os1 (doNotify n v).1) + kSubWaiter) % 2 ^ 64)
            [Call.futexWait kEpochOffset k.epoch_ kAllBits] := by
    intro loaded q hl hq
    have hw : wokenBy (doNotify n v).2 q = true := by
      rw [wokenBy_doNotify n v q hreg]; exact decide_eq_true hq
    rw [waitAfterNotify_woken n v k loaded q os1 os2 hw]
    exact hback loaded FutexResult.AWOKEN (by decide) hl
  refine ⟨?_, ?_, ?_, ?_⟩
  · rw [waitAfterNotify_beforeLoad]
    exact wait_of_epoch_ne k _ [] hne2
  · intro loaded hl
    rw [waitAfterNotify_entering n v k loaded os1 os2 _ hentry]
    exact hback loaded FutexResult.VALUE_CHANGED (by decide) hl
  · intro loaded q hl
    refine ⟨hwoken loaded q hl, ?_⟩
    intro hq
    have hw : wokenBy (doNotify n v).2 q = false := by
      rw [wokenBy_doNotify n v q hreg]; exact decide_eq_false (by omega)
    rw [waitAfterNotify_unwoken n v k loaded q os1 os2 hw]
    exact hsleep loaded hl
  · intro hn M loaded q hM hq hl
    have hi : INT_MAX = 2 ^ 31 - 1 := rfl
    exact hwoken loaded q hl (by rw [hn, hi]; omega)

/-- C17 amended, at epoch 3 with four registered threads, all blocked: after
`notifyAll()` the last of them returns, also when another one has returned
before it loads. -/
theorem notify_liveness_witness :
    3 * 2 ^ 32 + 4 < 2 ^ 64 ∧ 1 ≤ waitersOf (3 * 2 ^ 32 + 4)
    ∧ wellFormed (2 ^ 32 - 1) (waitersOf (3 * 2 ^ 32 + 4) - 1) ([Event.waitReturn] ++ []) = true
    ∧ waitAfterNotify INT_MAX (3 * 2 ^ 32 + 4) ⟨3⟩ (Position.asleep (3 * 2 ^ 32 + 4) 3)
        [Event.waitReturn] []
      = WaitOutcome.returned
          ((runEvents [] (runEvents [Event.waitReturn] (doNotify INT_MAX (3 * 2 ^ 32 + 4)).1)
            + kSubWaiter) % 2 ^ 64)
          [Call.futexWait kEpochOffset 3 kAllBits] :=
  ⟨by decide, by decide, by decide,
   ((notify_liveness INT_MAX (3 * 2 ^ 32 + 4) ⟨3⟩ [Event.waitReturn] [] (by decide) (by decide)
      (by decide) (by decide) (by decide)).2.2.1 (3 * 2 ^ 32 + 4) 3 (by decide)).1
      (by decide)⟩


end EventCount
